import Mathlib

/-!
Verification of the C++ code-generation core of `cpp_codegen.py`.

The Python source walks a resolved IDL type graph from a root type,
deduplicating via a visited set, classifying each node into one of five
collections, synthesizing C++ names, and assigning dense model IDs to
(type, discriminator) keys.  Python objects form a possibly cyclic graph,
so types are embedded as a finite store of shapes (`Graph`) whose nodes
reference each other by index; reference identity of Python objects
becomes index identity.  The recursive `visit` is embedded with an
explicit fuel parameter that is an upper bound on recursion depth; the
driver `generate` supplies fuel `g.nodes.length + 1`, which is proved
sufficient for well-formed graphs, so the fuel is an artifact of the
embedding and not a semantic change.
-/

/-- One attribute of `idl.TyInterface`: name, resolved sub-type
(by node index) and laziness flag. -/
structure Attr where
  name : String
  resolved_ty : Nat
  lazy : Bool
deriving DecidableEq, Repr

/-- The closed set of type variants dispatched on in `TypeVisitor.visit`,
plus `Other`, standing for a value whose variant tag is outside the
closed set (no `elif` branch of the Python dispatch matches it). -/
inductive TyShape where
  | TyInterface (name : String) (attrs : List Attr)
  | Alt (tys : List Nat)
  | TyEnum (name : String) (values : List String)
  | TyPrimitive (name : String)
  | TyFrozenArray (element_ty : Nat)
  | TyNone
  | Other (name : String)
deriving DecidableEq, Repr

/-- A finite type graph: node index `i` holds shape `nodes[i]`. -/
structure Graph where
  nodes : List TyShape
deriving DecidableEq, Repr

/-- The node indices a shape makes `visit` recurse into, in source order:
interface attribute types in declaration order, union members in
declaration order, the sequence element type. -/
def TyShape.children : TyShape → List Nat
  | .TyInterface _ attrs => attrs.map Attr.resolved_ty
  | .Alt tys => tys
  | .TyFrozenArray e => [e]
  | _ => []

/-- A graph is well formed when every referenced node index exists.
In Python this always holds: an attribute's `resolved_ty` is an object. -/
def Graph.WF (g : Graph) : Prop :=
  ∀ sh ∈ g.nodes, ∀ c ∈ sh.children, c < g.nodes.length

instance (g : Graph) : Decidable g.WF := by
  unfold Graph.WF
  infer_instance

/-- The children of the node stored at index `id`. -/
def childrenOf (g : Graph) (id : Nat) : List Nat :=
  match g.nodes[id]? with
  | some sh => sh.children
  | none => []

/-- The mutable state of a `CppTypeMacroGenerator` instance:
the visited set inherited from `TypeVisitor.__init__` plus the five
collections and the model-ID allocator set up by `generate`.
An interface collection entry is (name, fields) where a field is
(attribute name, type name, laziness literal, model ID), exactly the
tuples built by `visit_interface_type`. -/
structure GenState where
  visited_types : List Nat
  interfaces : List (String × List (String × String × String × Nat))
  alts : List (String × List String)
  enums : List String
  primitives : List String
  frozen_arrays : List (String × String × Nat)
  model_ids : List ((Nat × String) × Nat)
  next_model_id : Nat
deriving DecidableEq, Repr

/-- The state of a freshly constructed generator instance. -/
def freshState : GenState := ⟨[], [], [], [], [], [], [], 0⟩

/-- First-match association-list lookup, the model of a Python dict read. -/
def lookupId (m : List ((Nat × String) × Nat)) (k : Nat × String) : Option Nat :=
  match m with
  | [] => none
  | (k', v) :: rest => if k = k' then some v else lookupId rest k

/-- Association-list lookup for the resolver's interfaces dict. -/
def lookupStr (m : List (String × Nat)) (k : String) : Option Nat :=
  match m with
  | [] => none
  | (k', v) :: rest => if k = k' then some v else lookupStr rest k

/-- How a generation run can abort: the `KeyError` a missing dict key
raises, the `RecursionError` of a divergent `_cpp_name` recursion, and
exhaustion of the embedding's traversal fuel (never reached: the
traversal's visited set bounds its depth, see `visit_ok`). -/
inductive GenErr where
  | keyError (name : String)
  | recursionError
  | outOfFuel
deriving DecidableEq, Repr

/-- The node indices the `_cpp_name` recursion descends into: union
members and the sequence element.  Every other variant synthesizes its
name without recursion. -/
def nameChildren (g : Graph) (id : Nat) : List Nat :=
  match g.nodes[id]? with
  | some (TyShape.Alt tys) => tys
  | some (TyShape.TyFrozenArray e) => [e]
  | _ => []

/-- Termination of the source's `_cpp_name` recursion at a node: the
call tree below the node is finite (accessibility under the
name-recursion step).  The source has no cycle protection in
`_cpp_name`, so on a node where this fails — a union reachable from
itself through union members and sequence elements — Python recurses
forever and aborts with `RecursionError`. -/
inductive CppNameTerm (g : Graph) : Nat → Prop
  | mk (id : Nat) (h : ∀ c ∈ nameChildren g id, CppNameTerm g c) :
      CppNameTerm g id

/-- One or more name-recursion steps: strict reachability in the
`_cpp_name` call graph. -/
inductive NameReachPlus (g : Graph) : Nat → Nat → Prop
  | single {x y : Nat} : y ∈ nameChildren g x → NameReachPlus g x y
  | head {x y z : Nat} : y ∈ nameChildren g x → NameReachPlus g y z →
      NameReachPlus g x z

/-- `CppTypeMacroGenerator._cpp_name`: a union is the `Or`-join of its
members' names, a sequence is `FrozenArray_` applied to its element's
name, the void sentinel is the literal `None`, and everything else is
the declared `ty.name`.  The function reads only the graph, never the
traversal state, so the same node always yields the same result.
`none` models the `RecursionError` Python raises when the recursion
through union members and sequence elements diverges; the fuel
`g.nodes.length + 1` used by every caller is proved exact below
(`cppName_term_iff`): the result is `some` precisely on nodes where the
source's recursion terminates. -/
def _cpp_name (g : Graph) : Nat → Nat → Option String
  | 0, _ => none
  | fuel+1, id =>
    match g.nodes[id]? with
    | some (TyShape.Alt tys) =>
        match tys.foldl (fun acc c =>
            match acc, _cpp_name g fuel c with
            | some ns, some n => some (ns ++ [n])
            | _, _ => none) (some []) with
        | none => none
        | some ns => some (String.intercalate "Or" ns)
    | some (TyShape.TyFrozenArray e) =>
        match _cpp_name g fuel e with
        | none => none
        | some n => some ("FrozenArray_" ++ n)
    | some TyShape.TyNone => some "None"
    | some (TyShape.TyInterface name _) => some name
    | some (TyShape.TyEnum name _) => some name
    | some (TyShape.TyPrimitive name) => some name
    | some (TyShape.Other name) => some name
    | none => some ""

/-- The member-name accumulation of the `Alt` branch of `_cpp_name` and
of the list comprehension in `visit_alt_type`: all member names in
order, or `none` as soon as one name recursion diverges. -/
def nameList (g : Graph) (fuel : Nat) (tys : List Nat) : Option (List String) :=
  tys.foldl (fun acc c =>
    match acc, _cpp_name g fuel c with
    | some ns, some n => some (ns ++ [n])
    | _, _ => none) (some [])

/-- `CppTypeMacroGenerator._get_insert_model_id`: memoized dense ID
allocation.  A known key returns its recorded ID and leaves the state
unchanged; a novel key receives `next_model_id`, records the mapping and
increments the counter. -/
def _get_insert_model_id (s : GenState) (k : Nat × String) : Nat × GenState :=
  match lookupId s.model_ids k with
  | some v => (v, s)
  | none =>
      (s.next_model_id,
       { s with model_ids := s.model_ids ++ [(k, s.next_model_id)],
                next_model_id := s.next_model_id + 1 })

/-- The body of the `for attr in ty.attrs` loop of `visit_interface_type`:
allocate the model ID for `(ty, attr.name)`, then build the field tuple.
Python allocates the ID on the line before it evaluates
`_cpp_name(attr.resolved_ty)`, so a `RecursionError` raised by the name
call propagates with that allocation already recorded. -/
def field_step (g : Graph) (id : Nat)
    (acc : Except (GenErr × GenState)
      (List (String × String × String × Nat) × GenState)) (attr : Attr) :
    Except (GenErr × GenState)
      (List (String × String × String × Nat) × GenState) :=
  match acc with
  | Except.error e => Except.error e
  | Except.ok (fs, s) =>
      let r := _get_insert_model_id s (id, attr.name)
      match _cpp_name g (g.nodes.length + 1) attr.resolved_ty with
      | none => Except.error (GenErr.recursionError, r.2)
      | some n =>
          Except.ok (fs ++ [(attr.name, n,
            if attr.lazy then "true" else "false", r.1)], r.2)

/-- `CppTypeMacroGenerator.visit_interface_type`: build the field tuples
in declaration order, then append the (name, fields) record; the append
happens only after every argument evaluated, so a `RecursionError`
inside the loop leaves the interfaces collection untouched. -/
def visit_interface_type (g : Graph) (id : Nat) (attrs : List Attr)
    (s : GenState) : Except (GenErr × GenState) GenState :=
  match attrs.foldl (field_step g id) (Except.ok ([], s)) with
  | Except.error e => Except.error e
  | Except.ok (fs, s2) =>
      match _cpp_name g (g.nodes.length + 1) id with
      | none => Except.error (GenErr.recursionError, s2)
      | some n =>
          Except.ok { s2 with interfaces := s2.interfaces ++ [(n, fs)] }

/-- `CppTypeMacroGenerator.visit_alt_type`: Python evaluates
`_cpp_name(ty)` first, then the member-name list comprehension, then
appends; a `RecursionError` in either leaves the state unchanged. -/
def visit_alt_type (g : Graph) (id : Nat) (tys : List Nat) (s : GenState) :
    Except (GenErr × GenState) GenState :=
  match _cpp_name g (g.nodes.length + 1) id with
  | none => Except.error (GenErr.recursionError, s)
  | some n =>
      match nameList g (g.nodes.length + 1) tys with
      | none => Except.error (GenErr.recursionError, s)
      | some ns => Except.ok { s with alts := s.alts ++ [(n, ns)] }

/-- `CppTypeMacroGenerator.visit_enum_type`. -/
def visit_enum_type (g : Graph) (id : Nat) (s : GenState) :
    Except (GenErr × GenState) GenState :=
  match _cpp_name g (g.nodes.length + 1) id with
  | none => Except.error (GenErr.recursionError, s)
  | some n => Except.ok { s with enums := s.enums ++ [n] }

/-- `CppTypeMacroGenerator.visit_primitive_type`. -/
def visit_primitive_type (g : Graph) (id : Nat) (s : GenState) :
    Except (GenErr × GenState) GenState :=
  match _cpp_name g (g.nodes.length + 1) id with
  | none => Except.error (GenErr.recursionError, s)
  | some n => Except.ok { s with primitives := s.primitives ++ [n] }

/-- `CppTypeMacroGenerator.visit_frozen_array_type`: allocate the model
ID keyed by `(ty, 'list-length')` first (its own line in the source),
then evaluate both names and append. -/
def visit_frozen_array_type (g : Graph) (id : Nat) (e : Nat) (s : GenState) :
    Except (GenErr × GenState) GenState :=
  let r := _get_insert_model_id s (id, "list-length")
  match _cpp_name g (g.nodes.length + 1) id with
  | none => Except.error (GenErr.recursionError, r.2)
  | some n =>
      match _cpp_name g (g.nodes.length + 1) e with
      | none => Except.error (GenErr.recursionError, r.2)
      | some ne =>
          Except.ok { r.2 with frozen_arrays :=
            r.2.frozen_arrays ++ [(n, ne, r.1)] }

/-- `TypeVisitor.visit`: return immediately if the node is in the visited
set, otherwise add it and dispatch on its variant, calling the handler
and then recursing into sub-types in declaration order.  A variant with
no dispatch branch (the void sentinel, an unrecognized variant, or a
dangling index, which Python cannot produce) is only marked visited.
A handler error (the `RecursionError` of a divergent name synthesis)
propagates and aborts the whole run, as the Python exception does.
Fuel decreases on each nested call; depth is bounded by the number of
nodes, so `g.nodes.length + 1` is enough (proved below). -/
def visit (g : Graph) : Nat → Nat → GenState → Except (GenErr × GenState) GenState
  | 0, _, s => Except.error (GenErr.outOfFuel, s)
  | fuel+1, id, s =>
    if id ∈ s.visited_types then Except.ok s
    else
      let s1 : GenState := { s with visited_types := id :: s.visited_types }
      match g.nodes[id]? with
      | some (TyShape.TyInterface _ attrs) =>
          match visit_interface_type g id attrs s1 with
          | Except.error e => Except.error e
          | Except.ok s2 =>
              (attrs.map Attr.resolved_ty).foldl
                (fun acc c => Except.bind acc (fun st => visit g fuel c st))
                (Except.ok s2)
      | some (TyShape.Alt tys) =>
          match visit_alt_type g id tys s1 with
          | Except.error e => Except.error e
          | Except.ok s2 =>
              tys.foldl
                (fun acc c => Except.bind acc (fun st => visit g fuel c st))
                (Except.ok s2)
      | some (TyShape.TyEnum _ _) => visit_enum_type g id s1
      | some (TyShape.TyPrimitive _) => visit_primitive_type g id s1
      | some (TyShape.TyFrozenArray e) =>
          match visit_frozen_array_type g id e s1 with
          | Except.error er => Except.error er
          | Except.ok s2 => visit g fuel e s2
      | some TyShape.TyNone => Except.ok s1
      | some (TyShape.Other _) => Except.ok s1
      | none => Except.ok s1

/-- Sequential traversal of a list of sub-types, threading the state:
the body of the `for` loops that recurse in `visit`. -/
def visitList (g : Graph) (fuel : Nat) (ids : List Nat) (s : GenState) :
    Except (GenErr × GenState) GenState :=
  ids.foldl (fun acc c => Except.bind acc (fun st => visit g fuel c st))
    (Except.ok s)

/-- The resolver interface `cpp_codegen` consumes: the type store and the
named-interface dict used for the root lookup. -/
structure Resolver where
  graph : Graph
  interfaces : List (String × Nat)
deriving DecidableEq, Repr

/-- The field resets at the top of `CppTypeMacroGenerator.generate`:
the five collections and the allocator are re-initialized, while
`visited_types` (set up in `TypeVisitor.__init__`, never reset) is kept. -/
def resetState (s : GenState) : GenState :=
  { s with interfaces := [], alts := [], enums := [], primitives := [],
           frozen_arrays := [], model_ids := [], next_model_id := 0 }

/-- `CppTypeMacroGenerator.generate`: reset the collections and the
allocator, look up the root `'Script'` in the resolver (a missing key
raises), and traverse from it.  An error result carries the instance
state at the point the exception propagates. -/
def generate (r : Resolver) (s : GenState) : Except (GenErr × GenState) GenState :=
  let s0 := resetState s
  match lookupStr r.interfaces "Script" with
  | none => Except.error (GenErr.keyError "Script", s0)
  | some root => visit r.graph (r.graph.nodes.length + 1) root s0

/-- The `SYMBOL_NAMES` table of `cpp_codegen.py`; characters outside the
table map to `""` (in Python such a lookup is unreachable: the branch
using the table runs only when every character is a table key). -/
def SYMBOL_NAMES (c : Char) : String :=
  match c with
  | '+' => "PLUS"
  | '-' => "MINUS"
  | '=' => "EQUAL"
  | '/' => "SLASH"
  | '*' => "STAR"
  | '<' => "LESS"
  | '>' => "GREATER"
  | '|' => "PIPE"
  | '^' => "HAT"
  | '&' => "AND"
  | ',' => "COMMA"
  | '!' => "BANG"
  | '%' => "PCT"
  | '~' => "TILDE"
  | _ => ""

/-- The key set of `SYMBOL_NAMES`, the `specials` frozenset of `gen_enum`. -/
def specials : List Char :=
  ['+', '-', '=', '/', '*', '<', '>', '|', '^', '&', ',', '!', '%', '~']

/-- `make_name` inside `CppEnumTranslator.gen_enum`.  If any character of
the value is outside `specials`, substitute `_` for `-` and space
(`re.sub` over single characters) and uppercase the result (`.upper()`,
modelled per character, faithful on ASCII); otherwise join the table
names of the characters with `_`.  String operations are carried out on
the character list so that concrete instances evaluate in the kernel. -/
def make_name (v : String) : String :=
  if v.data.any (fun c => !(specials.contains c)) then
    ((v.data.map (fun c => if c == '-' || c == ' ' then '_' else c)).map
      Char.toUpper).asString
  else
    String.intercalate "_" (v.data.map SYMBOL_NAMES)

/-- Boolean code-point-lexicographic comparison on character lists, the
order Python's string `<` uses.  Proved below to agree with the library
order on `String`. -/
def lexLt : List Char → List Char → Bool
  | [], [] => false
  | [], _ :: _ => true
  | _ :: _, [] => false
  | a :: as, b :: bs => if a < b then true else if b < a then false else lexLt as bs

/-- `a ≤ b` as Python's sort comparator sees it. -/
def str_le (a b : String) : Bool := !(lexLt b.data a.data)

/-- Insert into a sorted list, keeping order: the building block of the
model of Python's `sorted`. -/
def insertSorted (v : String) : List String → List String
  | [] => [v]
  | w :: ws => if str_le v w then v :: w :: ws else w :: insertSorted v ws

/-- The model of Python's `sorted` on string values.  Python's sort is a
stable ascending sort; on strings, elements that compare equal are
identical, so any ascending sort produces the same list. -/
def sortedValues : List String → List String
  | [] => []
  | v :: vs => insertSorted v (sortedValues vs)

/-- The member-name list of `CppEnumTranslator.gen_enum`: the raw values
sorted ascending, each rendered by `make_name`. -/
def gen_enum_members (values : List String) : List String :=
  (sortedValues values).map make_name

/-- `CppEnumTranslator.gen_enum`: the rendered `enum class` text. -/
def gen_enum (name : String) (values : List String) : String :=
  "enum class " ++ name ++ " \x7b\n  " ++
    String.intercalate ",\n  " (gen_enum_members values) ++ "\n\x7d;"

/-- A sequence of allocator calls against one generator instance,
starting from the fresh allocator `generate` installs. -/
def runAlloc (ks : List (Nat × String)) : GenState :=
  ks.foldl (fun s k => (_get_insert_model_id s k).2) freshState

/-- The dual rendering rule exactly as the specification words it
(Modelled from the spec, for comparison with `make_name`): if every
character of the value is in the symbol table, the name is the
underscore-joined sequence of the symbols' table names; otherwise spaces
and hyphens become underscores and the result is uppercased. -/
def make_name_spec (v : String) : String :=
  if ∀ c ∈ v.data, c ∈ specials then
    String.intercalate "_" (v.data.map SYMBOL_NAMES)
  else
    ((v.data.map (fun c => if c = '-' ∨ c = ' ' then '_' else c)).map
      Char.toUpper).asString

/-- Variant recognizers used to count collection entries per kind. -/
def TyShape.isInterface : TyShape → Bool
  | .TyInterface _ _ => true
  | _ => false

def TyShape.isAlt : TyShape → Bool
  | .Alt _ => true
  | _ => false

def TyShape.isEnum : TyShape → Bool
  | .TyEnum _ _ => true
  | _ => false

def TyShape.isPrimitive : TyShape → Bool
  | .TyPrimitive _ => true
  | _ => false

def TyShape.isFrozenArray : TyShape → Bool
  | .TyFrozenArray _ => true
  | _ => false

/-- Whether the node stored at `id` satisfies the recognizer `p`. -/
def kindIs (g : Graph) (p : TyShape → Bool) (id : Nat) : Bool :=
  match g.nodes[id]? with
  | some sh => p sh
  | none => false

/-- The central dedup invariant: the visited set holds no node twice, and
each collection holds exactly one entry per visited node of its kind. -/
def CountsInv (g : Graph) (s : GenState) : Prop :=
  s.visited_types.Nodup ∧
  s.interfaces.length = (s.visited_types.filter (kindIs g TyShape.isInterface)).length ∧
  s.alts.length = (s.visited_types.filter (kindIs g TyShape.isAlt)).length ∧
  s.enums.length = (s.visited_types.filter (kindIs g TyShape.isEnum)).length ∧
  s.primitives.length = (s.visited_types.filter (kindIs g TyShape.isPrimitive)).length ∧
  s.frozen_arrays.length = (s.visited_types.filter (kindIs g TyShape.isFrozenArray)).length

/-- How one (sub-)traversal call relates its input state to its output
state: the visited set only grows, the dedup invariant is preserved, and
every newly visited node has had all its children visited. -/
def VisitEvolution (g : Graph) (s s' : GenState) : Prop :=
  (∀ x ∈ s.visited_types, x ∈ s'.visited_types) ∧
  (CountsInv g s → CountsInv g s') ∧
  (∀ x ∈ s'.visited_types,
    x ∈ s.visited_types ∨ ∀ c ∈ childrenOf g x, c ∈ s'.visited_types)

/-- Number of graph nodes not yet visited: the measure showing the fuel
`g.nodes.length + 1` suffices. -/
def unvisitedCount (g : Graph) (s : GenState) : Nat :=
  ((Finset.range g.nodes.length).filter (fun x => x ∉ s.visited_types)).card

/-- Reachability in the type graph: the nodes `visit` is supposed to
process when started at `root`. -/
inductive Reaches (g : Graph) (root : Nat) : Nat → Prop
  | refl : Reaches g root root
  | step {x y : Nat} : Reaches g root x → y ∈ childrenOf g x → Reaches g root y

/-- The allocator's internal invariant: IDs recorded so far are exactly
`0, 1, ..., next_model_id - 1` in insertion order, under distinct keys. -/
def AllocInv (s : GenState) : Prop :=
  s.model_ids.map Prod.snd = List.range s.next_model_id ∧
  (s.model_ids.map Prod.fst).Nodup

/-- Schema with two distinct primitive declarations that share the
declared name `P`, both reachable from the root interface. -/
def g_dupName : Graph :=
  ⟨[TyShape.TyInterface "A" [⟨"x", 1, false⟩, ⟨"y", 2, false⟩],
    TyShape.TyPrimitive "P", TyShape.TyPrimitive "P"]⟩

def r_dupName : Resolver := ⟨g_dupName, [("Script", 0)]⟩

/-- Root interface with one attribute of a primitive type. -/
def g_once : Graph :=
  ⟨[TyShape.TyInterface "A" [⟨"a0", 1, false⟩], TyShape.TyPrimitive "Number"]⟩

def r_once : Resolver := ⟨g_once, [("Script", 0)]⟩

/-- The cyclic schema of the claim: interface `A` has an attribute of
union type `U`, and `U`'s members include `A` itself. -/
def g_cyc : Graph :=
  ⟨[TyShape.TyInterface "A" [⟨"u", 1, false⟩], TyShape.Alt [0]]⟩

def r_cyc : Resolver := ⟨g_cyc, [("Script", 0)]⟩

/-- A root whose variant tag is outside the closed set. -/
def g_other : Graph := ⟨[TyShape.Other "Mystery"]⟩

def r_other : Resolver := ⟨g_other, [("Script", 0)]⟩

/-- A graph exercising every variant: used by concrete witnesses. -/
def g_full : Graph :=
  ⟨[TyShape.TyInterface "A"
      [⟨"p", 1, false⟩, ⟨"u", 2, true⟩, ⟨"e", 3, false⟩, ⟨"f", 4, false⟩],
    TyShape.TyPrimitive "Number",
    TyShape.Alt [1, 3],
    TyShape.TyEnum "E" ["b", "a"],
    TyShape.TyFrozenArray 1]⟩

def r_full : Resolver := ⟨g_full, [("Script", 0)]⟩

/-- The name-synthesis example graph: primitives `Number` and `String`,
their union, and a sequence of `Number`. -/
def g_ns : Graph :=
  ⟨[TyShape.TyPrimitive "Number", TyShape.TyPrimitive "String",
    TyShape.Alt [0, 1], TyShape.TyFrozenArray 0]⟩

/-- A resolver whose interfaces dict lacks the root name `Script`. -/
def r_noScript : Resolver := ⟨g_full, [("NotScript", 0)]⟩

/-- A union whose member list contains the union itself: well formed as
a graph, but the source's `_cpp_name` recursion on it never
terminates, so Python aborts the run with a `RecursionError`. -/
def g_altcyc : Graph := ⟨[TyShape.Alt [0]]⟩

def r_altcyc : Resolver := ⟨g_altcyc, [("Script", 0)]⟩
theorem lexLt_iff : ∀ xs ys : List Char, lexLt xs ys = true ↔ List.Lex (· < ·) xs ys := by
  intro xs
  induction xs with
  | nil =>
    intro ys
    cases ys with
    | nil =>
      simp only [lexLt, Bool.false_eq_true, false_iff]
      intro h
      cases h
    | cons b bs =>
      simp only [lexLt, true_iff]
      exact List.Lex.nil
  | cons a as ih =>
    intro ys
    cases ys with
    | nil =>
      simp only [lexLt, Bool.false_eq_true, false_iff]
      intro h
      cases h
    | cons b bs =>
      simp only [lexLt]
      by_cases hab : a < b
      · simp only [hab, if_pos, true_iff]
        exact List.Lex.rel hab
      · by_cases hba : b < a
        · simp only [hab, hba, if_neg, if_pos, not_false_iff, Bool.false_eq_true, false_iff]
          intro h
          cases h with
          | cons h => exact absurd hba (lt_irrefl a)
          | rel h => exact absurd h hab
        · have heq : a = b := le_antisymm (le_of_not_lt hba) (le_of_not_lt hab)
          subst heq
          simp only [hab, hba, if_neg, not_false_iff, ih bs]
          constructor
          · intro h
            exact List.Lex.cons h
          · intro h
            cases h with
            | cons h => exact h
            | rel h => exact absurd h hab

theorem str_lt_iff_lexLt (a b : String) : a < b ↔ lexLt a.data b.data = true := by
  rw [String.lt_iff_toList_lt, lexLt_iff]
  rfl

theorem str_le_iff (a b : String) : str_le a b = true ↔ a ≤ b := by
  rw [str_le, Bool.not_eq_true']
  constructor
  · intro h
    rw [← not_lt]
    intro hlt
    rw [str_lt_iff_lexLt] at hlt
    rw [hlt] at h
    exact Bool.noConfusion h
  · intro h
    rw [← not_lt] at h
    by_contra hc
    rw [Bool.not_eq_false] at hc
    exact h ((str_lt_iff_lexLt b a).mpr hc)

theorem str_le_of_not (a b : String) (h : ¬ str_le a b = true) : b ≤ a := by
  rw [str_le_iff] at h
  exact le_of_not_le h

theorem perm_insertSorted (v : String) :
    ∀ l : List String, (insertSorted v l).Perm (v :: l) := by
  intro l
  induction l with
  | nil => exact List.Perm.refl _
  | cons w ws ih =>
    rw [insertSorted]
    by_cases h : str_le v w
    · rw [if_pos h]
    · rw [if_neg h]
      exact (ih.cons w).trans (List.Perm.swap v w ws)

theorem mem_insertSorted (v y : String) (l : List String) :
    y ∈ insertSorted v l ↔ y = v ∨ y ∈ l := by
  rw [(perm_insertSorted v l).mem_iff, List.mem_cons]

theorem sorted_insertSorted (v : String) :
    ∀ l : List String, l.Sorted (· ≤ ·) → (insertSorted v l).Sorted (· ≤ ·) := by
  intro l
  induction l with
  | nil =>
    intro _
    exact List.sorted_singleton v
  | cons w ws ih =>
    intro h
    rw [List.sorted_cons] at h
    rw [insertSorted]
    by_cases hv : str_le v w
    · rw [if_pos hv]
      rw [List.sorted_cons]
      refine ⟨?_, ?_⟩
      · intro y hy
        rcases List.mem_cons.mp hy with hy | hy
        · rw [hy]
          exact (str_le_iff v w).mp hv
        · exact le_trans ((str_le_iff v w).mp hv) (h.1 y hy)
      · rw [List.sorted_cons]
        exact h
    · rw [if_neg hv]
      rw [List.sorted_cons]
      refine ⟨?_, ih h.2⟩
      intro y hy
      rcases (mem_insertSorted v y ws).mp hy with hy | hy
      · rw [hy]
        exact str_le_of_not v w hv
      · exact h.1 y hy

theorem sortedValues_perm : ∀ l : List String, (sortedValues l).Perm l := by
  intro l
  induction l with
  | nil => exact List.Perm.refl _
  | cons v vs ih =>
    rw [sortedValues]
    exact (perm_insertSorted v (sortedValues vs)).trans (ih.cons v)

theorem sortedValues_sorted : ∀ l : List String, (sortedValues l).Sorted (· ≤ ·) := by
  intro l
  induction l with
  | nil => exact List.sorted_nil
  | cons v vs ih =>
    rw [sortedValues]
    exact sorted_insertSorted v (sortedValues vs) ih

theorem make_name_eq_spec (v : String) : make_name v = make_name_spec v := by
  rw [make_name, make_name_spec]
  have hfun : (fun c : Char => if c == '-' || c == ' ' then '_' else c) =
      (fun c : Char => if c = '-' ∨ c = ' ' then '_' else c) := by
    funext c
    by_cases h1 : c = '-'
    · simp [h1]
    · by_cases h2 : c = ' '
      · simp [h1, h2]
      · simp [h1, h2]
  rw [hfun]
  by_cases h : ∀ c ∈ v.data, c ∈ specials
  · rw [if_pos h]
    have hany : (v.data.any fun c => !(specials.contains c)) = false := by
      rw [List.any_eq_false]
      intro c hc
      rw [Bool.not_eq_true', Bool.not_eq_false]
      exact List.elem_iff.mpr (h c hc)
    rw [hany]
    simp
  · rw [if_neg h]
    have hany : (v.data.any fun c => !(specials.contains c)) = true := by
      rw [List.any_eq_true]
      push_neg at h
      obtain ⟨c, hc, hcs⟩ := h
      refine ⟨c, hc, ?_⟩
      rw [Bool.not_eq_true', ← Bool.not_eq_true]
      intro hmem
      exact hcs (List.elem_iff.mp hmem)
    rw [hany]
    simp

theorem lookupId_eq_none (m : List ((Nat × String) × Nat)) (k : Nat × String) :
    lookupId m k = none ↔ k ∉ m.map Prod.fst := by
  induction m with
  | nil => simp [lookupId]
  | cons p rest ih =>
    rw [lookupId]
    by_cases h : k = p.1
    · simp [h]
    · simp [h, ih]

theorem mem_of_lookupId (m : List ((Nat × String) × Nat)) (k : Nat × String)
    (v : Nat) (h : lookupId m k = some v) : (k, v) ∈ m := by
  induction m with
  | nil => exact absurd h (by simp [lookupId])
  | cons p rest ih =>
    obtain ⟨k', v'⟩ := p
    rw [lookupId] at h
    by_cases hk : k = k'
    · rw [if_pos hk] at h
      injection h with h
      subst hk
      subst h
      exact List.mem_cons_self _ _
    · rw [if_neg hk] at h
      right
      exact ih h

theorem lookupId_of_mem (m : List ((Nat × String) × Nat)) (k : Nat × String)
    (v : Nat) (hnd : (m.map Prod.fst).Nodup) (hm : (k, v) ∈ m) :
    lookupId m k = some v := by
  induction m with
  | nil => cases hm
  | cons p rest ih =>
    rw [List.map_cons, List.nodup_cons] at hnd
    rw [lookupId]
    rcases List.mem_cons.mp hm with hm | hm
    · rw [← hm]
      simp
    · have hk : ¬ k = p.1 := by
        intro he
        exact hnd.1 (he ▸ List.mem_map_of_mem Prod.fst hm)
      rw [if_neg hk]
      exact ih hnd.2 hm

theorem allocInv_fresh : AllocInv freshState := by
  constructor <;> simp [freshState]

theorem allocInv_step (s : GenState) (k : Nat × String) (h : AllocInv s) :
    AllocInv ((_get_insert_model_id s k).2) := by
  rw [_get_insert_model_id]
  cases hl : lookupId s.model_ids k with
  | some v => exact h
  | none =>
    constructor
    · simp only [List.map_append, List.map_cons, List.map_nil, h.1, List.range_succ]
    · simp only [List.map_append, List.map_cons, List.map_nil]
      rw [(List.perm_append_singleton k (s.model_ids.map Prod.fst)).nodup_iff,
        List.nodup_cons]
      exact ⟨(lookupId_eq_none s.model_ids k).mp hl, h.2⟩

theorem allocInv_runAlloc (ks : List (Nat × String)) : AllocInv (runAlloc ks) := by
  rw [runAlloc]
  have aux : ∀ (l : List (Nat × String)) (s : GenState), AllocInv s →
      AllocInv (l.foldl (fun s k => (_get_insert_model_id s k).2) s) := by
    intro l
    induction l with
    | nil => intro s h; exact h
    | cons k ks ih =>
      intro s h
      rw [List.foldl_cons]
      exact ih _ (allocInv_step s k h)
  exact aux ks freshState allocInv_fresh

theorem alloc_inj (s : GenState) (h : AllocInv s) (k1 k2 : Nat × String)
    (v : Nat) (h1 : lookupId s.model_ids k1 = some v)
    (h2 : lookupId s.model_ids k2 = some v) : k1 = k2 := by
  have hm1 := mem_of_lookupId _ _ _ h1
  have hm2 := mem_of_lookupId _ _ _ h2
  have hnd : (s.model_ids.map Prod.snd).Nodup := by
    rw [h.1]
    exact List.nodup_range _
  have := List.inj_on_of_nodup_map hnd hm1 hm2 rfl
  exact congrArg Prod.fst this

theorem alloc_dense (s : GenState) (h : AllocInv s) (v : Nat) :
    v < s.next_model_id ↔ v ∈ s.model_ids.map Prod.snd := by
  rw [h.1, List.mem_range]

theorem get_insert_proj (s : GenState) (k : Nat × String) :
    ((_get_insert_model_id s k).2).visited_types = s.visited_types ∧
    ((_get_insert_model_id s k).2).interfaces = s.interfaces ∧
    ((_get_insert_model_id s k).2).alts = s.alts ∧
    ((_get_insert_model_id s k).2).enums = s.enums ∧
    ((_get_insert_model_id s k).2).primitives = s.primitives ∧
    ((_get_insert_model_id s k).2).frozen_arrays = s.frozen_arrays := by
  unfold _get_insert_model_id
  cases lookupId s.model_ids k <;> simp


theorem nameList_foldl_none (g : Graph) (fuel : Nat) :
    ∀ tys : List Nat,
      tys.foldl (fun acc c =>
        match acc, _cpp_name g fuel c with
        | some ns, some n => some (ns ++ [n])
        | _, _ => none) none = none := by
  intro tys
  induction tys with
  | nil => rfl
  | cons c cs ih =>
    rw [List.foldl_cons]
    exact ih

theorem nameList_some_of_mem (g : Graph) (fuel : Nat) :
    ∀ (tys : List Nat) (ns0 : List String),
      (∀ c ∈ tys, (_cpp_name g fuel c).isSome) →
      (tys.foldl (fun acc c =>
        match acc, _cpp_name g fuel c with
        | some ns, some n => some (ns ++ [n])
        | _, _ => none) (some ns0)).isSome := by
  intro tys
  induction tys with
  | nil =>
    intro ns0 _
    rfl
  | cons c cs ih =>
    intro ns0 h
    rw [List.foldl_cons]
    cases hc : _cpp_name g fuel c with
    | none => exact absurd (h c (List.mem_cons_self c cs)) (by rw [hc]; simp)
    | some n => exact ih (ns0 ++ [n]) (fun d hd => h d (List.mem_cons_of_mem c hd))

theorem nameList_mem_of_some (g : Graph) (fuel : Nat) :
    ∀ (tys : List Nat) (acc : Option (List String)) (r : List String),
      tys.foldl (fun acc c =>
        match acc, _cpp_name g fuel c with
        | some ns, some n => some (ns ++ [n])
        | _, _ => none) acc = some r →
      ∀ c ∈ tys, (_cpp_name g fuel c).isSome := by
  intro tys
  induction tys with
  | nil =>
    intro acc r _ c hc
    cases hc
  | cons c cs ih =>
    intro acc r h d hd
    rw [List.foldl_cons] at h
    cases hacc : acc with
    | none =>
      rw [hacc] at h
      have h2 : cs.foldl (fun acc c =>
          match acc, _cpp_name g fuel c with
          | some ns, some n => some (ns ++ [n])
          | _, _ => none) none = some r := h
      rw [nameList_foldl_none] at h2
      exact Option.noConfusion h2
    | some ns =>
      rw [hacc] at h
      cases hcn : _cpp_name g fuel c with
      | none =>
        rw [hcn] at h
        have h2 : cs.foldl (fun acc c =>
            match acc, _cpp_name g fuel c with
            | some ns, some n => some (ns ++ [n])
            | _, _ => none) none = some r := h
        rw [nameList_foldl_none] at h2
        exact Option.noConfusion h2
      | some n =>
        rw [hcn] at h
        rcases List.mem_cons.mp hd with hd | hd
        · rw [hd, hcn]
          rfl
        · exact ih (some (ns ++ [n])) r h d hd

theorem cppName_alt (g : Graph) (fuel id : Nat) (tys : List Nat)
    (hn : g.nodes[id]? = some (TyShape.Alt tys)) :
    _cpp_name g (fuel + 1) id =
      Option.map (String.intercalate "Or") (nameList g fuel tys) := by
  rw [_cpp_name, hn]
  show (match nameList g fuel tys with
    | none => none
    | some ns => some (String.intercalate "Or" ns)) = _
  cases nameList g fuel tys <;> rfl

theorem cppName_frozen (g : Graph) (fuel id e : Nat)
    (hn : g.nodes[id]? = some (TyShape.TyFrozenArray e)) :
    _cpp_name g (fuel + 1) id =
      Option.map (fun n => "FrozenArray_" ++ n) (_cpp_name g fuel e) := by
  rw [_cpp_name, hn]
  show (match _cpp_name g fuel e with
    | none => none
    | some n => some ("FrozenArray_" ++ n)) = _
  cases _cpp_name g fuel e <;> rfl

theorem cppName_leaf_interface (g : Graph) (fuel id : Nat) (name : String)
    (attrs : List Attr) (hn : g.nodes[id]? = some (TyShape.TyInterface name attrs)) :
    _cpp_name g (fuel + 1) id = some name := by
  rw [_cpp_name, hn]

theorem cppName_leaf_enum (g : Graph) (fuel id : Nat) (name : String)
    (values : List String) (hn : g.nodes[id]? = some (TyShape.TyEnum name values)) :
    _cpp_name g (fuel + 1) id = some name := by
  rw [_cpp_name, hn]

theorem cppName_leaf_primitive (g : Graph) (fuel id : Nat) (name : String)
    (hn : g.nodes[id]? = some (TyShape.TyPrimitive name)) :
    _cpp_name g (fuel + 1) id = some name := by
  rw [_cpp_name, hn]

theorem cppName_leaf_tynone (g : Graph) (fuel id : Nat)
    (hn : g.nodes[id]? = some TyShape.TyNone) :
    _cpp_name g (fuel + 1) id = some "None" := by
  rw [_cpp_name, hn]

theorem cppName_leaf_other (g : Graph) (fuel id : Nat) (name : String)
    (hn : g.nodes[id]? = some (TyShape.Other name)) :
    _cpp_name g (fuel + 1) id = some name := by
  rw [_cpp_name, hn]

theorem cppName_leaf_missing (g : Graph) (fuel id : Nat)
    (hn : g.nodes[id]? = none) :
    _cpp_name g (fuel + 1) id = some "" := by
  rw [_cpp_name, hn]

theorem nameReachPlus_snoc (g : Graph) (x y z : Nat)
    (h : NameReachPlus g x y) (hz : z ∈ nameChildren g y) :
    NameReachPlus g x z := by
  induction h with
  | single hy => exact NameReachPlus.head hy (NameReachPlus.single hz)
  | head hy _ ih => exact NameReachPlus.head hy (ih hz)

theorem cppNameTerm_not_reach_self (g : Graph) (x : Nat)
    (h : CppNameTerm g x) : ¬ NameReachPlus g x x := by
  induction h with
  | mk x hch ih =>
    intro hpl
    cases hpl with
    | single hy => exact ih x hy (NameReachPlus.single hy)
    | head hy hyx => exact ih _ hy (nameReachPlus_snoc g _ x _ hyx hy)

theorem cppNameTerm_children (g : Graph) (id : Nat) (h : CppNameTerm g id) :
    ∀ c ∈ nameChildren g id, CppNameTerm g c := by
  cases h with
  | mk _ hch => exact hch

theorem cppName_some_of_term (g : Graph) :
    ∀ (id : Nat), CppNameTerm g id →
    ∀ (seen : List Nat), seen.Nodup → (∀ x ∈ seen, x < g.nodes.length) →
      (∀ x ∈ seen, NameReachPlus g x id) → id ∉ seen →
      (_cpp_name g (g.nodes.length + 1 - seen.length) id).isSome := by
  intro id h
  induction h with
  | mk id hch ih =>
    intro seen hnd hbnd hreach hid
    have hlen : seen.length ≤ g.nodes.length := by
      have hsub : seen ⊆ List.range g.nodes.length := by
        intro x hx
        exact List.mem_range.mpr (hbnd x hx)
      have hle := (List.Nodup.subperm hnd hsub).length_le
      simpa using hle
    have hfuel : g.nodes.length + 1 - seen.length =
        (g.nodes.length - seen.length) + 1 := by omega
    rw [hfuel]
    cases hn : g.nodes[id]? with
    | none =>
      rw [cppName_leaf_missing g _ id hn]
      rfl
    | some sh =>
      have hidlt : id < g.nodes.length := (List.getElem?_eq_some.mp hn).1
      have hrec : ∀ c ∈ nameChildren g id,
          (_cpp_name g (g.nodes.length - seen.length) c).isSome := by
        intro c hc
        have harith : g.nodes.length + 1 - (id :: seen).length =
            g.nodes.length - seen.length := by
          rw [List.length_cons]
          omega
        have hres := ih c hc (id :: seen)
          (List.nodup_cons.mpr ⟨hid, hnd⟩)
          (by
            intro x hx
            rcases List.mem_cons.mp hx with hx | hx
            · rw [hx]
              exact hidlt
            · exact hbnd x hx)
          (by
            intro x hx
            rcases List.mem_cons.mp hx with hx | hx
            · rw [hx]
              exact NameReachPlus.single hc
            · exact nameReachPlus_snoc g x id c (hreach x hx) hc)
          (by
            intro hcmem
            rcases List.mem_cons.mp hcmem with hceq | hcs
            · have hp : NameReachPlus g id id := by
                rw [hceq] at hc
                exact NameReachPlus.single hc
              exact cppNameTerm_not_reach_self g id (CppNameTerm.mk id hch) hp
            · have hp : NameReachPlus g c c :=
                nameReachPlus_snoc g c id c (hreach c hcs) hc
              exact cppNameTerm_not_reach_self g c (hch c hc) hp)
        rw [harith] at hres
        exact hres
      cases sh with
      | Alt tys =>
        rw [cppName_alt g (g.nodes.length - seen.length) id tys hn]
        have hmem : ∀ c ∈ tys, (_cpp_name g (g.nodes.length - seen.length) c).isSome := by
          intro c hc
          exact hrec c (by rw [nameChildren, hn]; exact hc)
        have hnl : (nameList g (g.nodes.length - seen.length) tys).isSome = true :=
          nameList_some_of_mem g (g.nodes.length - seen.length) tys [] hmem
        cases hx : nameList g (g.nodes.length - seen.length) tys with
        | none =>
          rw [hx] at hnl
          simp at hnl
        | some ns => rfl
      | TyFrozenArray e =>
        rw [cppName_frozen g (g.nodes.length - seen.length) id e hn]
        have he : (_cpp_name g (g.nodes.length - seen.length) e).isSome :=
          hrec e (by rw [nameChildren, hn]; exact List.mem_singleton.mpr rfl)
        cases hx : _cpp_name g (g.nodes.length - seen.length) e with
        | none =>
          rw [hx] at he
          simp at he
        | some n => rfl
      | TyInterface name attrs =>
        rw [cppName_leaf_interface g _ id name attrs hn]
        rfl
      | TyEnum name values =>
        rw [cppName_leaf_enum g _ id name values hn]
        rfl
      | TyPrimitive name =>
        rw [cppName_leaf_primitive g _ id name hn]
        rfl
      | TyNone =>
        rw [cppName_leaf_tynone g _ id hn]
        rfl
      | Other name =>
        rw [cppName_leaf_other g _ id name hn]
        rfl

theorem cppNameTerm_of_isSome (g : Graph) :
    ∀ (fuel id : Nat), (_cpp_name g fuel id).isSome → CppNameTerm g id := by
  intro fuel
  induction fuel with
  | zero =>
    intro id h
    exact absurd h (by rw [_cpp_name]; simp)
  | succ f ih =>
    intro id h
    cases hn : g.nodes[id]? with
    | none =>
      refine CppNameTerm.mk id ?_
      intro c hc
      rw [nameChildren, hn] at hc
      cases hc
    | some sh =>
      cases sh with
      | Alt tys =>
        rw [cppName_alt g f id tys hn] at h
        cases hx : nameList g f tys with
        | none =>
          rw [hx] at h
          simp at h
        | some ns =>
          refine CppNameTerm.mk id ?_
          intro c hc
          rw [nameChildren, hn] at hc
          have hx2 : tys.foldl (fun acc c =>
              match acc, _cpp_name g f c with
              | some ns, some n => some (ns ++ [n])
              | _, _ => none) (some []) = some ns := hx
          exact ih c (nameList_mem_of_some g f tys (some []) ns hx2 c hc)
      | TyFrozenArray e =>
        rw [cppName_frozen g f id e hn] at h
        cases hx : _cpp_name g f e with
        | none =>
          rw [hx] at h
          simp at h
        | some n =>
          refine CppNameTerm.mk id ?_
          intro c hc
          rw [nameChildren, hn] at hc
          rcases List.mem_singleton.mp hc with hc
          rw [hc]
          exact ih e (by rw [hx]; rfl)
      | TyInterface name attrs =>
        refine CppNameTerm.mk id ?_
        intro c hc
        rw [nameChildren, hn] at hc
        cases hc
      | TyEnum name values =>
        refine CppNameTerm.mk id ?_
        intro c hc
        rw [nameChildren, hn] at hc
        cases hc
      | TyPrimitive name =>
        refine CppNameTerm.mk id ?_
        intro c hc
        rw [nameChildren, hn] at hc
        cases hc
      | TyNone =>
        refine CppNameTerm.mk id ?_
        intro c hc
        rw [nameChildren, hn] at hc
        cases hc
      | Other name =>
        refine CppNameTerm.mk id ?_
        intro c hc
        rw [nameChildren, hn] at hc
        cases hc

theorem cppName_term_iff (g : Graph) (id : Nat) :
    (_cpp_name g (g.nodes.length + 1) id).isSome ↔ CppNameTerm g id := by
  constructor
  · exact cppNameTerm_of_isSome g _ id
  · intro h
    have hres := cppName_some_of_term g id h [] List.nodup_nil
      (by intro x hx; cases hx) (by intro x hx; cases hx) (by intro hx; cases hx)
    simpa using hres

theorem field_fold_error (g : Graph) (id : Nat) :
    ∀ (attrs : List Attr) (e : GenErr × GenState),
      attrs.foldl (field_step g id) (Except.error e) = Except.error e := by
  intro attrs
  induction attrs with
  | nil =>
    intro e
    rfl
  | cons a as ih =>
    intro e
    rw [List.foldl_cons]
    exact ih e

theorem fold_field_proj (g : Graph) (id : Nat) :
    ∀ (attrs : List Attr)
      (p q : List (String × String × String × Nat) × GenState),
      attrs.foldl (field_step g id) (Except.ok p) = Except.ok q →
      q.2.visited_types = p.2.visited_types ∧
      q.2.interfaces = p.2.interfaces ∧
      q.2.alts = p.2.alts ∧
      q.2.enums = p.2.enums ∧
      q.2.primitives = p.2.primitives ∧
      q.2.frozen_arrays = p.2.frozen_arrays := by
  intro attrs
  induction attrs with
  | nil =>
    intro p q h
    injection h with h
    subst h
    exact ⟨rfl, rfl, rfl, rfl, rfl, rfl⟩
  | cons a as ih =>
    intro p q h
    rw [List.foldl_cons] at h
    obtain ⟨fs, st⟩ := p
    cases hname : _cpp_name g (g.nodes.length + 1) a.resolved_ty with
    | none =>
      have hstep : field_step g id (Except.ok (fs, st)) a =
          Except.error (GenErr.recursionError,
            (_get_insert_model_id st (id, a.name)).2) := by
        simp only [field_step, hname]
      rw [hstep, field_fold_error] at h
      exact Except.noConfusion h
    | some n =>
      have hstep : field_step g id (Except.ok (fs, st)) a =
          Except.ok (fs ++ [(a.name, n, if a.lazy then "true" else "false",
            (_get_insert_model_id st (id, a.name)).1)],
            (_get_insert_model_id st (id, a.name)).2) := by
        simp only [field_step, hname]
      rw [hstep] at h
      have h2 := ih _ q h
      have h1 := get_insert_proj st (id, a.name)
      exact ⟨h2.1.trans h1.1, h2.2.1.trans h1.2.1, h2.2.2.1.trans h1.2.2.1,
             h2.2.2.2.1.trans h1.2.2.2.1, h2.2.2.2.2.1.trans h1.2.2.2.2.1,
             h2.2.2.2.2.2.trans h1.2.2.2.2.2⟩

theorem fold_field_ok (g : Graph) (id : Nat) :
    ∀ (attrs : List Attr)
      (p : List (String × String × String × Nat) × GenState),
      (∀ a ∈ attrs, (_cpp_name g (g.nodes.length + 1) a.resolved_ty).isSome) →
      ∃ q, attrs.foldl (field_step g id) (Except.ok p) = Except.ok q := by
  intro attrs
  induction attrs with
  | nil =>
    intro p _
    exact ⟨p, rfl⟩
  | cons a as ih =>
    intro p hs
    obtain ⟨fs, st⟩ := p
    cases hname : _cpp_name g (g.nodes.length + 1) a.resolved_ty with
    | none =>
      have := hs a (List.mem_cons_self a as)
      rw [hname] at this
      simp at this
    | some n =>
      have hstep : field_step g id (Except.ok (fs, st)) a =
          Except.ok (fs ++ [(a.name, n, if a.lazy then "true" else "false",
            (_get_insert_model_id st (id, a.name)).1)],
            (_get_insert_model_id st (id, a.name)).2) := by
        simp only [field_step, hname]
      obtain ⟨q, hq⟩ := ih ((fs ++ [(a.name, n, if a.lazy then "true" else "false",
            (_get_insert_model_id st (id, a.name)).1)],
            (_get_insert_model_id st (id, a.name)).2))
        (fun b hb => hs b (List.mem_cons_of_mem a hb))
      refine ⟨q, ?_⟩
      rw [List.foldl_cons, hstep]
      exact hq

theorem vit_proj (g : Graph) (id : Nat) (attrs : List Attr) (s s2 : GenState)
    (h : visit_interface_type g id attrs s = Except.ok s2) :
    s2.visited_types = s.visited_types ∧
    s2.interfaces.length = s.interfaces.length + 1 ∧
    s2.alts = s.alts ∧
    s2.enums = s.enums ∧
    s2.primitives = s.primitives ∧
    s2.frozen_arrays = s.frozen_arrays := by
  rw [visit_interface_type] at h
  split at h
  · exact Except.noConfusion h
  · rename_i fs s3 heq
    split at h
    · exact Except.noConfusion h
    · rename_i n hname
      injection h with h
      subst h
      have hp := fold_field_proj g id attrs ([], s) (fs, s3) heq
      refine ⟨hp.1, ?_, hp.2.2.1, hp.2.2.2.1, hp.2.2.2.2.1, hp.2.2.2.2.2⟩
      show (s3.interfaces ++ [(n, fs)]).length = s.interfaces.length + 1
      rw [List.length_append, hp.2.1]
      rfl

theorem vat_proj (g : Graph) (id : Nat) (tys : List Nat) (s s2 : GenState)
    (h : visit_alt_type g id tys s = Except.ok s2) :
    s2.visited_types = s.visited_types ∧
    s2.interfaces = s.interfaces ∧
    s2.alts.length = s.alts.length + 1 ∧
    s2.enums = s.enums ∧
    s2.primitives = s.primitives ∧
    s2.frozen_arrays = s.frozen_arrays := by
  rw [visit_alt_type] at h
  split at h
  · exact Except.noConfusion h
  · split at h
    · exact Except.noConfusion h
    · injection h with h
      subst h
      refine ⟨rfl, rfl, ?_, rfl, rfl, rfl⟩
      show (s.alts ++ _).length = s.alts.length + 1
      rw [List.length_append]
      rfl

theorem vet_proj (g : Graph) (id : Nat) (s s2 : GenState)
    (h : visit_enum_type g id s = Except.ok s2) :
    s2.visited_types = s.visited_types ∧
    s2.interfaces = s.interfaces ∧
    s2.alts = s.alts ∧
    s2.enums.length = s.enums.length + 1 ∧
    s2.primitives = s.primitives ∧
    s2.frozen_arrays = s.frozen_arrays := by
  rw [visit_enum_type] at h
  split at h
  · exact Except.noConfusion h
  · injection h with h
    subst h
    refine ⟨rfl, rfl, rfl, ?_, rfl, rfl⟩
    show (s.enums ++ _).length = s.enums.length + 1
    rw [List.length_append]
    rfl

theorem vpt_proj (g : Graph) (id : Nat) (s s2 : GenState)
    (h : visit_primitive_type g id s = Except.ok s2) :
    s2.visited_types = s.visited_types ∧
    s2.interfaces = s.interfaces ∧
    s2.alts = s.alts ∧
    s2.enums = s.enums ∧
    s2.primitives.length = s.primitives.length + 1 ∧
    s2.frozen_arrays = s.frozen_arrays := by
  rw [visit_primitive_type] at h
  split at h
  · exact Except.noConfusion h
  · injection h with h
    subst h
    refine ⟨rfl, rfl, rfl, rfl, ?_, rfl⟩
    show (s.primitives ++ _).length = s.primitives.length + 1
    rw [List.length_append]
    rfl

theorem vfat_proj (g : Graph) (id e : Nat) (s s2 : GenState)
    (h : visit_frozen_array_type g id e s = Except.ok s2) :
    s2.visited_types = s.visited_types ∧
    s2.interfaces = s.interfaces ∧
    s2.alts = s.alts ∧
    s2.enums = s.enums ∧
    s2.primitives = s.primitives ∧
    s2.frozen_arrays.length = s.frozen_arrays.length + 1 := by
  rw [visit_frozen_array_type] at h
  split at h
  · exact Except.noConfusion h
  · split at h
    · exact Except.noConfusion h
    · injection h with h
      subst h
      have hp := get_insert_proj s (id, "list-length")
      refine ⟨hp.1, hp.2.1, hp.2.2.1, hp.2.2.2.1, hp.2.2.2.2.1, ?_⟩
      show ((_get_insert_model_id s (id, "list-length")).2.frozen_arrays ++ _).length =
        s.frozen_arrays.length + 1
      rw [List.length_append, hp.2.2.2.2.2]
      rfl

theorem vit_ok (g : Graph) (id : Nat) (attrs : List Attr) (s : GenState)
    (hattrs : ∀ a ∈ attrs, (_cpp_name g (g.nodes.length + 1) a.resolved_ty).isSome)
    (hself : (_cpp_name g (g.nodes.length + 1) id).isSome) :
    ∃ s2, visit_interface_type g id attrs s = Except.ok s2 := by
  obtain ⟨⟨fs, s3⟩, hq⟩ := fold_field_ok g id attrs ([], s) hattrs
  cases hname : _cpp_name g (g.nodes.length + 1) id with
  | none =>
    rw [hname] at hself
    simp at hself
  | some n =>
    refine ⟨{ s3 with interfaces := s3.interfaces ++ [(n, fs)] }, ?_⟩
    rw [visit_interface_type, hq, hname]

theorem vat_ok (g : Graph) (id : Nat) (tys : List Nat) (s : GenState)
    (hmem : ∀ c ∈ tys, (_cpp_name g (g.nodes.length + 1) c).isSome)
    (hself : (_cpp_name g (g.nodes.length + 1) id).isSome) :
    ∃ s2, visit_alt_type g id tys s = Except.ok s2 := by
  cases hname : _cpp_name g (g.nodes.length + 1) id with
  | none =>
    rw [hname] at hself
    simp at hself
  | some n =>
    have hnl : (nameList g (g.nodes.length + 1) tys).isSome = true :=
      nameList_some_of_mem g (g.nodes.length + 1) tys [] hmem
    cases hx : nameList g (g.nodes.length + 1) tys with
    | none =>
      rw [hx] at hnl
      simp at hnl
    | some ns =>
      refine ⟨{ s with alts := s.alts ++ [(n, ns)] }, ?_⟩
      rw [visit_alt_type, hname, hx]

theorem vet_ok (g : Graph) (id : Nat) (s : GenState)
    (hself : (_cpp_name g (g.nodes.length + 1) id).isSome) :
    ∃ s2, visit_enum_type g id s = Except.ok s2 := by
  cases hname : _cpp_name g (g.nodes.length + 1) id with
  | none =>
    rw [hname] at hself
    simp at hself
  | some n =>
    refine ⟨{ s with enums := s.enums ++ [n] }, ?_⟩
    rw [visit_enum_type, hname]

theorem vpt_ok (g : Graph) (id : Nat) (s : GenState)
    (hself : (_cpp_name g (g.nodes.length + 1) id).isSome) :
    ∃ s2, visit_primitive_type g id s = Except.ok s2 := by
  cases hname : _cpp_name g (g.nodes.length + 1) id with
  | none =>
    rw [hname] at hself
    simp at hself
  | some n =>
    refine ⟨{ s with primitives := s.primitives ++ [n] }, ?_⟩
    rw [visit_primitive_type, hname]

theorem vfat_ok (g : Graph) (id e : Nat) (s : GenState)
    (hself : (_cpp_name g (g.nodes.length + 1) id).isSome)
    (helem : (_cpp_name g (g.nodes.length + 1) e).isSome) :
    ∃ s2, visit_frozen_array_type g id e s = Except.ok s2 := by
  cases hname : _cpp_name g (g.nodes.length + 1) id with
  | none =>
    rw [hname] at hself
    simp at hself
  | some n =>
    cases hne : _cpp_name g (g.nodes.length + 1) e with
    | none =>
      rw [hne] at helem
      simp at helem
    | some ne =>
      refine ⟨{ (_get_insert_model_id s (id, "list-length")).2 with
        frozen_arrays := (_get_insert_model_id s (id, "list-length")).2.frozen_arrays ++
          [(n, ne, (_get_insert_model_id s (id, "list-length")).1)] }, ?_⟩
      rw [visit_frozen_array_type, hname, hne]

theorem visitList_foldl_error (g : Graph) (fuel : Nat) :
    ∀ (ids : List Nat) (e : GenErr × GenState),
      ids.foldl (fun acc c => Except.bind acc (fun st => visit g fuel c st))
        (Except.error e) = Except.error e := by
  intro ids
  induction ids with
  | nil =>
    intro e
    rfl
  | cons c cs ih =>
    intro e
    rw [List.foldl_cons]
    exact ih e

theorem visitList_nil (g : Graph) (fuel : Nat) (s : GenState) :
    visitList g fuel [] s = Except.ok s := rfl

theorem visitList_cons (g : Graph) (fuel c : Nat) (cs : List Nat) (s : GenState) :
    visitList g fuel (c :: cs) s =
      Except.bind (visit g fuel c s) (fun st => visitList g fuel cs st) := by
  rw [visitList, List.foldl_cons]
  have hb : Except.bind (Except.ok s) (fun st => visit g fuel c st) =
      visit g fuel c s := rfl
  rw [hb]
  cases h : visit g fuel c s with
  | error e =>
    rw [visitList_foldl_error]
    rfl
  | ok s1 => rfl

theorem visit_zero (g : Graph) (id : Nat) (s : GenState) :
    visit g 0 id s = Except.error (GenErr.outOfFuel, s) := rfl

theorem visit_visited (g : Graph) (fuel id : Nat) (s : GenState)
    (h : id ∈ s.visited_types) : visit g (fuel + 1) id s = Except.ok s := by
  rw [visit]
  rw [if_pos h]

theorem visit_dispatch_interface (g : Graph) (fuel id : Nat) (s : GenState)
    (name : String) (attrs : List Attr) (hm : id ∉ s.visited_types)
    (hn : g.nodes[id]? = some (TyShape.TyInterface name attrs)) :
    visit g (fuel + 1) id s =
      match visit_interface_type g id attrs
          { s with visited_types := id :: s.visited_types } with
      | Except.error e => Except.error e
      | Except.ok s2 => visitList g fuel (attrs.map Attr.resolved_ty) s2 := by
  rw [visit, if_neg hm, hn]
  show (match visit_interface_type g id attrs
      { s with visited_types := id :: s.visited_types } with
    | Except.error e => Except.error e
    | Except.ok s2 => visitList g fuel (attrs.map Attr.resolved_ty) s2) = _
  rfl

theorem visit_dispatch_alt (g : Graph) (fuel id : Nat) (s : GenState)
    (tys : List Nat) (hm : id ∉ s.visited_types)
    (hn : g.nodes[id]? = some (TyShape.Alt tys)) :
    visit g (fuel + 1) id s =
      match visit_alt_type g id tys
          { s with visited_types := id :: s.visited_types } with
      | Except.error e => Except.error e
      | Except.ok s2 => visitList g fuel tys s2 := by
  rw [visit, if_neg hm, hn]
  show (match visit_alt_type g id tys
      { s with visited_types := id :: s.visited_types } with
    | Except.error e => Except.error e
    | Except.ok s2 => visitList g fuel tys s2) = _
  rfl

theorem visit_dispatch_enum (g : Graph) (fuel id : Nat) (s : GenState)
    (name : String) (values : List String) (hm : id ∉ s.visited_types)
    (hn : g.nodes[id]? = some (TyShape.TyEnum name values)) :
    visit g (fuel + 1) id s =
      visit_enum_type g id { s with visited_types := id :: s.visited_types } := by
  rw [visit, if_neg hm, hn]

theorem visit_dispatch_primitive (g : Graph) (fuel id : Nat) (s : GenState)
    (name : String) (hm : id ∉ s.visited_types)
    (hn : g.nodes[id]? = some (TyShape.TyPrimitive name)) :
    visit g (fuel + 1) id s =
      visit_primitive_type g id { s with visited_types := id :: s.visited_types } := by
  rw [visit, if_neg hm, hn]

theorem visit_dispatch_frozen (g : Graph) (fuel id : Nat) (s : GenState)
    (e : Nat) (hm : id ∉ s.visited_types)
    (hn : g.nodes[id]? = some (TyShape.TyFrozenArray e)) :
    visit g (fuel + 1) id s =
      match visit_frozen_array_type g id e
          { s with visited_types := id :: s.visited_types } with
      | Except.error er => Except.error er
      | Except.ok s2 => visit g fuel e s2 := by
  rw [visit, if_neg hm, hn]

theorem visit_dispatch_tynone (g : Graph) (fuel id : Nat) (s : GenState)
    (hm : id ∉ s.visited_types) (hn : g.nodes[id]? = some TyShape.TyNone) :
    visit g (fuel + 1) id s =
      Except.ok { s with visited_types := id :: s.visited_types } := by
  rw [visit, if_neg hm, hn]

theorem visit_dispatch_other (g : Graph) (fuel id : Nat) (s : GenState)
    (name : String) (hm : id ∉ s.visited_types)
    (hn : g.nodes[id]? = some (TyShape.Other name)) :
    visit g (fuel + 1) id s =
      Except.ok { s with visited_types := id :: s.visited_types } := by
  rw [visit, if_neg hm, hn]

theorem visit_dispatch_missing (g : Graph) (fuel id : Nat) (s : GenState)
    (hm : id ∉ s.visited_types) (hn : g.nodes[id]? = none) :
    visit g (fuel + 1) id s =
      Except.ok { s with visited_types := id :: s.visited_types } := by
  rw [visit, if_neg hm, hn]

theorem visitEvolution_refl (g : Graph) (s : GenState) : VisitEvolution g s s :=
  ⟨fun _ h => h, fun h => h, fun _ hx => Or.inl hx⟩

theorem visitEvolution_trans (g : Graph) (s1 s2 s3 : GenState)
    (h12 : VisitEvolution g s1 s2) (h23 : VisitEvolution g s2 s3) :
    VisitEvolution g s1 s3 := by
  refine ⟨fun x hx => h23.1 x (h12.1 x hx), fun h => h23.2.1 (h12.2.1 h), ?_⟩
  intro x hx
  rcases h23.2.2 x hx with hx2 | hx2
  · rcases h12.2.2 x hx2 with hx1 | hx1
    · exact Or.inl hx1
    · exact Or.inr (fun c hc => h23.1 c (hx1 c hc))
  · exact Or.inr hx2

theorem countsInv_cons_entry (g : Graph) (s s2 : GenState) (id : Nat)
    (hm : id ∉ s.visited_types)
    (hvis : s2.visited_types = id :: s.visited_types)
    (hi : s2.interfaces.length =
      s.interfaces.length + (if kindIs g TyShape.isInterface id then 1 else 0))
    (ha : s2.alts.length =
      s.alts.length + (if kindIs g TyShape.isAlt id then 1 else 0))
    (he : s2.enums.length =
      s.enums.length + (if kindIs g TyShape.isEnum id then 1 else 0))
    (hpr : s2.primitives.length =
      s.primitives.length + (if kindIs g TyShape.isPrimitive id then 1 else 0))
    (hf : s2.frozen_arrays.length =
      s.frozen_arrays.length + (if kindIs g TyShape.isFrozenArray id then 1 else 0))
    (h : CountsInv g s) : CountsInv g s2 := by
  obtain ⟨hnd, h1, h2, h3, h4, h5⟩ := h
  refine ⟨?_, ?_, ?_, ?_, ?_, ?_⟩
  · rw [hvis]
    exact List.nodup_cons.mpr ⟨hm, hnd⟩
  · rw [hi, hvis, List.filter_cons]
    by_cases hk : kindIs g TyShape.isInterface id
    · simp [hk, h1]
    · simp [hk, h1]
  · rw [ha, hvis, List.filter_cons]
    by_cases hk : kindIs g TyShape.isAlt id
    · simp [hk, h2]
    · simp [hk, h2]
  · rw [he, hvis, List.filter_cons]
    by_cases hk : kindIs g TyShape.isEnum id
    · simp [hk, h3]
    · simp [hk, h3]
  · rw [hpr, hvis, List.filter_cons]
    by_cases hk : kindIs g TyShape.isPrimitive id
    · simp [hk, h4]
    · simp [hk, h4]
  · rw [hf, hvis, List.filter_cons]
    by_cases hk : kindIs g TyShape.isFrozenArray id
    · simp [hk, h5]
    · simp [hk, h5]

theorem visit_assemble (g : Graph) (id : Nat) (s s2 s' : GenState)
    (hvis : s2.visited_types = id :: s.visited_types)
    (hinv : CountsInv g s → CountsInv g s2)
    (hve : VisitEvolution g s2 s')
    (hch : ∀ c ∈ childrenOf g id, c ∈ s'.visited_types) :
    VisitEvolution g s s' ∧ id ∈ s'.visited_types := by
  refine ⟨⟨?_, fun h => hve.2.1 (hinv h), ?_⟩, ?_⟩
  · intro x hx
    exact hve.1 x (by rw [hvis]; exact List.mem_cons_of_mem id hx)
  · intro x hx
    rcases hve.2.2 x hx with hx2 | hx2
    · rw [hvis] at hx2
      rcases List.mem_cons.mp hx2 with heq | hx3
      · subst heq
        exact Or.inr hch
      · exact Or.inl hx3
    · exact Or.inr hx2
  · exact hve.1 id (by rw [hvis]; exact List.mem_cons_self _ _)

theorem countsInv_step_interface (g : Graph) (id : Nat) (name : String)
    (attrs : List Attr) (s s2 : GenState) (hm : id ∉ s.visited_types)
    (hn : g.nodes[id]? = some (TyShape.TyInterface name attrs))
    (hh : visit_interface_type g id attrs
      { s with visited_types := id :: s.visited_types } = Except.ok s2) :
    CountsInv g s → CountsInv g s2 := by
  intro h
  have hp := vit_proj g id attrs _ s2 hh
  apply countsInv_cons_entry g s s2 id hm hp.1 _ _ _ _ _ h
  · rw [hp.2.1]
    simp [kindIs, hn, TyShape.isInterface]
  · rw [hp.2.2.1]
    simp [kindIs, hn, TyShape.isAlt]
  · rw [hp.2.2.2.1]
    simp [kindIs, hn, TyShape.isEnum]
  · rw [hp.2.2.2.2.1]
    simp [kindIs, hn, TyShape.isPrimitive]
  · rw [hp.2.2.2.2.2]
    simp [kindIs, hn, TyShape.isFrozenArray]

theorem countsInv_step_alt (g : Graph) (id : Nat) (tys : List Nat)
    (s s2 : GenState) (hm : id ∉ s.visited_types)
    (hn : g.nodes[id]? = some (TyShape.Alt tys))
    (hh : visit_alt_type g id tys
      { s with visited_types := id :: s.visited_types } = Except.ok s2) :
    CountsInv g s → CountsInv g s2 := by
  intro h
  have hp := vat_proj g id tys _ s2 hh
  apply countsInv_cons_entry g s s2 id hm hp.1 _ _ _ _ _ h
  · rw [hp.2.1]
    simp [kindIs, hn, TyShape.isInterface]
  · rw [hp.2.2.1]
    simp [kindIs, hn, TyShape.isAlt]
  · rw [hp.2.2.2.1]
    simp [kindIs, hn, TyShape.isEnum]
  · rw [hp.2.2.2.2.1]
    simp [kindIs, hn, TyShape.isPrimitive]
  · rw [hp.2.2.2.2.2]
    simp [kindIs, hn, TyShape.isFrozenArray]

theorem countsInv_step_enum (g : Graph) (id : Nat) (name : String)
    (values : List String) (s s2 : GenState) (hm : id ∉ s.visited_types)
    (hn : g.nodes[id]? = some (TyShape.TyEnum name values))
    (hh : visit_enum_type g id
      { s with visited_types := id :: s.visited_types } = Except.ok s2) :
    CountsInv g s → CountsInv g s2 := by
  intro h
  have hp := vet_proj g id _ s2 hh
  apply countsInv_cons_entry g s s2 id hm hp.1 _ _ _ _ _ h
  · rw [hp.2.1]
    simp [kindIs, hn, TyShape.isInterface]
  · rw [hp.2.2.1]
    simp [kindIs, hn, TyShape.isAlt]
  · rw [hp.2.2.2.1]
    simp [kindIs, hn, TyShape.isEnum]
  · rw [hp.2.2.2.2.1]
    simp [kindIs, hn, TyShape.isPrimitive]
  · rw [hp.2.2.2.2.2]
    simp [kindIs, hn, TyShape.isFrozenArray]

theorem countsInv_step_primitive (g : Graph) (id : Nat) (name : String)
    (s s2 : GenState) (hm : id ∉ s.visited_types)
    (hn : g.nodes[id]? = some (TyShape.TyPrimitive name))
    (hh : visit_primitive_type g id
      { s with visited_types := id :: s.visited_types } = Except.ok s2) :
    CountsInv g s → CountsInv g s2 := by
  intro h
  have hp := vpt_proj g id _ s2 hh
  apply countsInv_cons_entry g s s2 id hm hp.1 _ _ _ _ _ h
  · rw [hp.2.1]
    simp [kindIs, hn, TyShape.isInterface]
  · rw [hp.2.2.1]
    simp [kindIs, hn, TyShape.isAlt]
  · rw [hp.2.2.2.1]
    simp [kindIs, hn, TyShape.isEnum]
  · rw [hp.2.2.2.2.1]
    simp [kindIs, hn, TyShape.isPrimitive]
  · rw [hp.2.2.2.2.2]
    simp [kindIs, hn, TyShape.isFrozenArray]

theorem countsInv_step_frozen (g : Graph) (id e : Nat) (s s2 : GenState)
    (hm : id ∉ s.visited_types)
    (hn : g.nodes[id]? = some (TyShape.TyFrozenArray e))
    (hh : visit_frozen_array_type g id e
      { s with visited_types := id :: s.visited_types } = Except.ok s2) :
    CountsInv g s → CountsInv g s2 := by
  intro h
  have hp := vfat_proj g id e _ s2 hh
  apply countsInv_cons_entry g s s2 id hm hp.1 _ _ _ _ _ h
  · rw [hp.2.1]
    simp [kindIs, hn, TyShape.isInterface]
  · rw [hp.2.2.1]
    simp [kindIs, hn, TyShape.isAlt]
  · rw [hp.2.2.2.1]
    simp [kindIs, hn, TyShape.isEnum]
  · rw [hp.2.2.2.2.1]
    simp [kindIs, hn, TyShape.isPrimitive]
  · rw [hp.2.2.2.2.2]
    simp [kindIs, hn, TyShape.isFrozenArray]

theorem countsInv_step_mark (g : Graph) (id : Nat) (s : GenState)
    (hm : id ∉ s.visited_types)
    (hk : ∀ sh, g.nodes[id]? = some sh →
      sh.isInterface = false ∧ sh.isAlt = false ∧ sh.isEnum = false ∧
      sh.isPrimitive = false ∧ sh.isFrozenArray = false) :
    CountsInv g s → CountsInv g { s with visited_types := id :: s.visited_types } := by
  intro h
  have hfalse : ∀ p : TyShape → Bool,
      (∀ sh, g.nodes[id]? = some sh → p sh = false) → kindIs g p id = false := by
    intro p hp
    rw [kindIs]
    cases hc : g.nodes[id]? with
    | none => rfl
    | some sh => exact hp sh hc
  apply countsInv_cons_entry g s _ id hm rfl _ _ _ _ _ h
  · rw [hfalse _ (fun sh hc => (hk sh hc).1)]
    simp
  · rw [hfalse _ (fun sh hc => (hk sh hc).2.1)]
    simp
  · rw [hfalse _ (fun sh hc => (hk sh hc).2.2.1)]
    simp
  · rw [hfalse _ (fun sh hc => (hk sh hc).2.2.2.1)]
    simp
  · rw [hfalse _ (fun sh hc => (hk sh hc).2.2.2.2)]
    simp

theorem visitList_evolution_of (g : Graph) (fuel : Nat)
    (hv : ∀ (id : Nat) (s s' : GenState), visit g fuel id s = Except.ok s' →
      VisitEvolution g s s' ∧ id ∈ s'.visited_types) :
    ∀ (ids : List Nat) (s s' : GenState), visitList g fuel ids s = Except.ok s' →
      VisitEvolution g s s' ∧ ∀ c ∈ ids, c ∈ s'.visited_types := by
  intro ids
  induction ids with
  | nil =>
    intro s s' h
    rw [visitList_nil] at h
    injection h with h
    subst h
    exact ⟨visitEvolution_refl g s, by intro c hc; cases hc⟩
  | cons c cs ih =>
    intro s s' h
    rw [visitList_cons] at h
    cases hc : visit g fuel c s with
    | error e =>
      rw [hc] at h
      exact absurd h (by simp [Except.bind])
    | ok s1 =>
      rw [hc] at h
      have hb : Except.bind (Except.ok s1) (fun st => visitList g fuel cs st) =
          visitList g fuel cs s1 := rfl
      rw [hb] at h
      have h1 := hv c s s1 hc
      have h2 := ih s1 s' h
      refine ⟨visitEvolution_trans g s s1 s' h1.1 h2.1, ?_⟩
      intro d hd
      rcases List.mem_cons.mp hd with hd | hd
      · subst hd
        exact h2.1.1 d h1.2
      · exact h2.2 d hd

theorem visit_evolution (g : Graph) :
    ∀ (fuel id : Nat) (s s' : GenState), visit g fuel id s = Except.ok s' →
      VisitEvolution g s s' ∧ id ∈ s'.visited_types := by
  intro fuel
  induction fuel with
  | zero =>
    intro id s s' h
    rw [visit_zero] at h
    exact Except.noConfusion h
  | succ f ih =>
    intro id s s' h
    by_cases hm : id ∈ s.visited_types
    · rw [visit_visited g f id s hm] at h
      injection h with h
      subst h
      exact ⟨visitEvolution_refl g s, hm⟩
    · cases hn : g.nodes[id]? with
      | none =>
        rw [visit_dispatch_missing g f id s hm hn] at h
        injection h with h
        subst h
        exact visit_assemble g id s _ _ rfl
          (countsInv_step_mark g id s hm (fun sh hc => by rw [hn] at hc; cases hc))
          (visitEvolution_refl g _)
          (by intro c hc; rw [childrenOf, hn] at hc; cases hc)
      | some sh =>
        cases sh with
        | TyInterface name attrs =>
          rw [visit_dispatch_interface g f id s name attrs hm hn] at h
          cases hh : visit_interface_type g id attrs
              { s with visited_types := id :: s.visited_types } with
          | error e =>
            rw [hh] at h
            exact Except.noConfusion h
          | ok s2 =>
            rw [hh] at h
            have h2 : visitList g f (attrs.map Attr.resolved_ty) s2 =
                Except.ok s' := h
            have hl := visitList_evolution_of g f ih _ _ _ h2
            refine visit_assemble g id s s2 s' (vit_proj g id attrs _ s2 hh).1
              (countsInv_step_interface g id name attrs s s2 hm hn hh) hl.1 ?_
            intro c hc
            apply hl.2
            rw [childrenOf, hn] at hc
            exact hc
        | Alt tys =>
          rw [visit_dispatch_alt g f id s tys hm hn] at h
          cases hh : visit_alt_type g id tys
              { s with visited_types := id :: s.visited_types } with
          | error e =>
            rw [hh] at h
            exact Except.noConfusion h
          | ok s2 =>
            rw [hh] at h
            have h2 : visitList g f tys s2 = Except.ok s' := h
            have hl := visitList_evolution_of g f ih _ _ _ h2
            refine visit_assemble g id s s2 s' (vat_proj g id tys _ s2 hh).1
              (countsInv_step_alt g id tys s s2 hm hn hh) hl.1 ?_
            intro c hc
            apply hl.2
            rw [childrenOf, hn] at hc
            exact hc
        | TyEnum name values =>
          rw [visit_dispatch_enum g f id s name values hm hn] at h
          exact visit_assemble g id s s' s' (vet_proj g id _ s' h).1
            (countsInv_step_enum g id name values s s' hm hn h)
            (visitEvolution_refl g s')
            (by intro c hc; rw [childrenOf, hn] at hc; cases hc)
        | TyPrimitive name =>
          rw [visit_dispatch_primitive g f id s name hm hn] at h
          exact visit_assemble g id s s' s' (vpt_proj g id _ s' h).1
            (countsInv_step_primitive g id name s s' hm hn h)
            (visitEvolution_refl g s')
            (by intro c hc; rw [childrenOf, hn] at hc; cases hc)
        | TyFrozenArray e =>
          rw [visit_dispatch_frozen g f id s e hm hn] at h
          cases hh : visit_frozen_array_type g id e
              { s with visited_types := id :: s.visited_types } with
          | error er =>
            rw [hh] at h
            exact Except.noConfusion h
          | ok s2 =>
            rw [hh] at h
            have h2 : visit g f e s2 = Except.ok s' := h
            have hl := ih e _ s' h2
            refine visit_assemble g id s s2 s' (vfat_proj g id e _ s2 hh).1
              (countsInv_step_frozen g id e s s2 hm hn hh) hl.1 ?_
            intro c hc
            rw [childrenOf, hn] at hc
            rcases List.mem_singleton.mp hc with hc
            subst hc
            exact hl.2
        | TyNone =>
          rw [visit_dispatch_tynone g f id s hm hn] at h
          injection h with h
          subst h
          exact visit_assemble g id s _ _ rfl
            (countsInv_step_mark g id s hm (fun sh hc => by
              rw [hn] at hc
              injection hc with hc
              subst hc
              exact ⟨rfl, rfl, rfl, rfl, rfl⟩))
            (visitEvolution_refl g _)
            (by intro c hc; rw [childrenOf, hn] at hc; cases hc)
        | Other name =>
          rw [visit_dispatch_other g f id s name hm hn] at h
          injection h with h
          subst h
          exact visit_assemble g id s _ _ rfl
            (countsInv_step_mark g id s hm (fun sh hc => by
              rw [hn] at hc
              injection hc with hc
              subst hc
              exact ⟨rfl, rfl, rfl, rfl, rfl⟩))
            (visitEvolution_refl g _)
            (by intro c hc; rw [childrenOf, hn] at hc; cases hc)

theorem unvisitedCount_le (g : Graph) (s : GenState) :
    unvisitedCount g s ≤ g.nodes.length := by
  rw [unvisitedCount]
  exact le_trans (Finset.card_filter_le _ _) (le_of_eq (Finset.card_range _))

theorem unvisitedCount_congr (g : Graph) (s t : GenState)
    (h : s.visited_types = t.visited_types) :
    unvisitedCount g s = unvisitedCount g t := by
  rw [unvisitedCount, unvisitedCount, h]

theorem unvisitedCount_mono (g : Graph) (s s' : GenState)
    (h : ∀ x ∈ s.visited_types, x ∈ s'.visited_types) :
    unvisitedCount g s' ≤ unvisitedCount g s := by
  apply Finset.card_le_card
  intro x hx
  rw [Finset.mem_filter] at hx ⊢
  refine ⟨hx.1, ?_⟩
  intro hmem
  exact hx.2 (h x hmem)

theorem unvisitedCount_mark (g : Graph) (s : GenState) (id : Nat)
    (hid : id < g.nodes.length) (hm : id ∉ s.visited_types) :
    unvisitedCount g { s with visited_types := id :: s.visited_types } <
      unvisitedCount g s := by
  apply Finset.card_lt_card
  have hsub : (Finset.range g.nodes.length).filter
      (fun x => x ∉ ({ s with visited_types := id :: s.visited_types } : GenState).visited_types) ⊆
      (Finset.range g.nodes.length).filter (fun x => x ∉ s.visited_types) := by
    intro x hx
    rw [Finset.mem_filter] at hx ⊢
    refine ⟨hx.1, ?_⟩
    intro hmem
    exact hx.2 (List.mem_cons_of_mem id hmem)
  rw [Finset.ssubset_iff_of_subset hsub]
  refine ⟨id, ?_, ?_⟩
  · rw [Finset.mem_filter]
    exact ⟨Finset.mem_range.mpr hid, hm⟩
  · rw [Finset.mem_filter]
    intro hcon
    exact hcon.2 (List.mem_cons_self id _)

theorem visitList_ok (g : Graph) (f : Nat)
    (hv : ∀ (id : Nat) (s : GenState), id < g.nodes.length →
      unvisitedCount g s < f → ∃ s', visit g f id s = Except.ok s') :
    ∀ (ids : List Nat) (s : GenState), (∀ c ∈ ids, c < g.nodes.length) →
      unvisitedCount g s < f → ∃ s', visitList g f ids s = Except.ok s' := by
  intro ids
  induction ids with
  | nil =>
    intro s _ _
    exact ⟨s, visitList_nil g f s⟩
  | cons c cs ih =>
    intro s hc hcnt
    obtain ⟨s1, hs1⟩ := hv c s (hc c (List.mem_cons_self c cs)) hcnt
    have hmono : unvisitedCount g s1 ≤ unvisitedCount g s :=
      unvisitedCount_mono g s s1 (visit_evolution g f c s s1 hs1).1.1
    obtain ⟨s', hs'⟩ := ih s1 (fun d hd => hc d (List.mem_cons_of_mem c hd))
      (lt_of_le_of_lt hmono hcnt)
    refine ⟨s', ?_⟩
    rw [visitList_cons, hs1]
    exact hs'

theorem visit_ok (g : Graph) (hwf : g.WF)
    (hname : ∀ i, i < g.nodes.length → (_cpp_name g (g.nodes.length + 1) i).isSome) :
    ∀ (fuel id : Nat) (s : GenState), id < g.nodes.length →
      unvisitedCount g s < fuel → ∃ s', visit g fuel id s = Except.ok s' := by
  intro fuel
  induction fuel with
  | zero =>
    intro id s _ hcnt
    exact absurd hcnt (Nat.not_lt_zero _)
  | succ f ih =>
    intro id s hid hcnt
    by_cases hm : id ∈ s.visited_types
    · exact ⟨s, visit_visited g f id s hm⟩
    · have hdec : unvisitedCount g { s with visited_types := id :: s.visited_types } < f :=
        lt_of_lt_of_le (unvisitedCount_mark g s id hid hm) (Nat.le_of_lt_succ hcnt)
      cases hn : g.nodes[id]? with
      | none => exact ⟨_, visit_dispatch_missing g f id s hm hn⟩
      | some sh =>
        have hsh : sh ∈ g.nodes := by
          have hlt : id < g.nodes.length := hid
          have hg : g.nodes[id]? = some g.nodes[id] := List.getElem?_eq_getElem hlt
          rw [hg] at hn
          injection hn with hn
          rw [← hn]
          exact List.getElem_mem hlt
        have hchild : ∀ c ∈ sh.children, c < g.nodes.length := hwf sh hsh
        cases sh with
        | TyInterface name attrs =>
          obtain ⟨s2, hs2⟩ := vit_ok g id attrs
            { s with visited_types := id :: s.visited_types }
            (fun a ha => hname a.resolved_ty
              (hchild a.resolved_ty (List.mem_map_of_mem Attr.resolved_ty ha)))
            (hname id hid)
          have hcs2 : unvisitedCount g s2 < f := by
            rw [unvisitedCount_congr g s2 _ (vit_proj g id attrs _ s2 hs2).1]
            exact hdec
          obtain ⟨s', hs'⟩ := visitList_ok g f ih (attrs.map Attr.resolved_ty) s2
            hchild hcs2
          refine ⟨s', ?_⟩
          rw [visit_dispatch_interface g f id s name attrs hm hn, hs2]
          exact hs'
        | Alt tys =>
          obtain ⟨s2, hs2⟩ := vat_ok g id tys
            { s with visited_types := id :: s.visited_types }
            (fun c hc => hname c (hchild c hc))
            (hname id hid)
          have hcs2 : unvisitedCount g s2 < f := by
            rw [unvisitedCount_congr g s2 _ (vat_proj g id tys _ s2 hs2).1]
            exact hdec
          obtain ⟨s', hs'⟩ := visitList_ok g f ih tys s2 hchild hcs2
          refine ⟨s', ?_⟩
          rw [visit_dispatch_alt g f id s tys hm hn, hs2]
          exact hs'
        | TyEnum name values =>
          obtain ⟨s2, hs2⟩ := vet_ok g id
            { s with visited_types := id :: s.visited_types } (hname id hid)
          refine ⟨s2, ?_⟩
          rw [visit_dispatch_enum g f id s name values hm hn]
          exact hs2
        | TyPrimitive name =>
          obtain ⟨s2, hs2⟩ := vpt_ok g id
            { s with visited_types := id :: s.visited_types } (hname id hid)
          refine ⟨s2, ?_⟩
          rw [visit_dispatch_primitive g f id s name hm hn]
          exact hs2
        | TyFrozenArray e =>
          have he : e < g.nodes.length := hchild e (List.mem_singleton.mpr rfl)
          obtain ⟨s2, hs2⟩ := vfat_ok g id e
            { s with visited_types := id :: s.visited_types }
            (hname id hid) (hname e he)
          have hcs2 : unvisitedCount g s2 < f := by
            rw [unvisitedCount_congr g s2 _ (vfat_proj g id e _ s2 hs2).1]
            exact hdec
          obtain ⟨s', hs'⟩ := ih e s2 he hcs2
          refine ⟨s', ?_⟩
          rw [visit_dispatch_frozen g f id s e hm hn, hs2]
          exact hs'
        | TyNone =>
          exact ⟨_, visit_dispatch_tynone g f id s hm hn⟩
        | Other name =>
          exact ⟨_, visit_dispatch_other g f id s name hm hn⟩

theorem reaches_subset_visited (g : Graph) (fuel root : Nat) (s s' : GenState)
    (hempty : s.visited_types = []) (h : visit g fuel root s = Except.ok s') :
    ∀ x, Reaches g root x → x ∈ s'.visited_types := by
  intro x hx
  induction hx with
  | refl => exact (visit_evolution g fuel root s s' h).2
  | step hr hc ihx =>
    rcases (visit_evolution g fuel root s s' h).1.2.2 _ ihx with hin | hch
    · rw [hempty] at hin
      cases hin
    · exact hch _ hc

theorem generate_ok_inv (r : Resolver) (s s1 : GenState)
    (h : generate r s = Except.ok s1) :
    ∃ root, lookupStr r.interfaces "Script" = some root ∧
      visit r.graph (r.graph.nodes.length + 1) root (resetState s) = Except.ok s1 := by
  rw [generate] at h
  split at h
  · exact Except.noConfusion h
  · rename_i root hl
    exact ⟨root, hl, h⟩

theorem resetState_visited (s : GenState) :
    (resetState s).visited_types = s.visited_types := rfl

theorem countsInv_reset_empty (g : Graph) (s : GenState)
    (h : s.visited_types = []) : CountsInv g (resetState s) := by
  refine ⟨?_, ?_, ?_, ?_, ?_, ?_⟩ <;> simp [resetState, h]

theorem lookupId_append_self (m : List ((Nat × String) × Nat)) (k : Nat × String)
    (v : Nat) (h : lookupId m k = none) :
    lookupId (m ++ [(k, v)]) k = some v := by
  induction m with
  | nil => simp [lookupId]
  | cons p rest ih =>
    obtain ⟨k', v'⟩ := p
    rw [lookupId] at h
    rw [List.cons_append, lookupId]
    by_cases hk : k = k'
    · rw [if_pos hk] at h
      exact absurd h (by simp)
    · rw [if_neg hk] at h
      rw [if_neg hk]
      exact ih h

/-- C1 counterexample: in the schema `g_dupName`, two distinct primitive
declarations both named `P` are reachable; each is visited once, so the
primitives collection receives two textually identical entries, refuting
"every collection contains zero duplicate entries" at the entry level. -/
theorem C1_duplicate_entries_counterexample :
    (generate r_dupName freshState).toOption.map GenState.primitives =
      some ["P", "P"] ∧
    ¬ (["P", "P"] : List String).Nodup := by
  constructor
  · rfl
  · decide

/-- C1 (amended): every reachable node is processed exactly once — all
reachable nodes end up in the visited set, the visited set is
duplicate-free, and each collection holds exactly one entry per visited
node of its kind.  (Distinct nodes whose synthesized names coincide can
still render textually equal entries, as the counterexample shows.) -/
theorem C1_processed_exactly_once (r : Resolver) (root : Nat) (s' : GenState)
    (hroot : lookupStr r.interfaces "Script" = some root)
    (h : generate r freshState = Except.ok s') :
    (∀ x, Reaches r.graph root x → x ∈ s'.visited_types) ∧
    s'.visited_types.Nodup ∧
    s'.interfaces.length =
      (s'.visited_types.filter (kindIs r.graph TyShape.isInterface)).length ∧
    s'.alts.length =
      (s'.visited_types.filter (kindIs r.graph TyShape.isAlt)).length ∧
    s'.enums.length =
      (s'.visited_types.filter (kindIs r.graph TyShape.isEnum)).length ∧
    s'.primitives.length =
      (s'.visited_types.filter (kindIs r.graph TyShape.isPrimitive)).length ∧
    s'.frozen_arrays.length =
      (s'.visited_types.filter (kindIs r.graph TyShape.isFrozenArray)).length := by
  obtain ⟨root', hl, hv⟩ := generate_ok_inv r freshState s' h
  injection (hroot.symm.trans hl) with heq
  subst heq
  have hcounts : CountsInv r.graph s' :=
    (visit_evolution r.graph _ _ _ s' hv).1.2.1
      (countsInv_reset_empty r.graph freshState rfl)
  obtain ⟨hnd, h1, h2, h3, h4, h5⟩ := hcounts
  exact ⟨reaches_subset_visited r.graph _ _ _ s' rfl hv, hnd, h1, h2, h3, h4, h5⟩

/-- Witness for C1: on the concrete schema `r_once` the hypotheses hold
and the resulting visited set is duplicate-free. -/
theorem C1_processed_exactly_once_witness :
    (⟨[1, 0], [("A", [("a0", "Number", "false", 0)])], [], [], ["Number"], [],
      [((0, "a0"), 0)], 1⟩ : GenState).visited_types.Nodup :=
  (C1_processed_exactly_once r_once 0
    ⟨[1, 0], [("A", [("a0", "Number", "false", 0)])], [], [], ["Number"], [],
      [((0, "a0"), 0)], 1⟩ rfl rfl).2.1

/-- C2 counterexample: the well-formed graph `g_altcyc` — one union
whose member list contains the union itself — resolves its root, yet
the traversal does not complete: `visit_alt_type` calls `_cpp_name` on
the union, that recursion never terminates (`¬ CppNameTerm`), and the
run aborts with the recursion error before anything is appended, so
the cycle-starting type appears zero times in its collection.  This
refutes "for every finite type graph the traversal terminates". -/
theorem C2_name_cycle_counterexample :
    g_altcyc.WF ∧
    lookupStr r_altcyc.interfaces "Script" = some 0 ∧
    generate r_altcyc freshState =
      Except.error (GenErr.recursionError, ⟨[0], [], [], [], [], [], [], 0⟩) ∧
    ¬ CppNameTerm g_altcyc 0 := by
  refine ⟨by decide, rfl, rfl, ?_⟩
  intro h
  exact cppNameTerm_not_reach_self g_altcyc 0 h
    (NameReachPlus.single (by decide))

/-- C2 (amended): for every well-formed finite type graph whose root
resolves and whose name-synthesis recursion terminates at every node,
the traversal terminates (the fuel bound `nodes + 1` is never the
reason a run fails, and under these hypotheses no recursion error
occurs either); when the name recursion diverges the run instead
aborts with a recursion error, as the counterexample shows.  The
claim's own cyclic example — interface `A` with an attribute of union
type `U` whose members include `A` — satisfies the hypotheses, because
name synthesis stops at interface names, and there `A` appears exactly
once in the interfaces collection. -/
theorem C2_termination (r : Resolver) (root : Nat) (hwf : r.graph.WF)
    (hroot : lookupStr r.interfaces "Script" = some root)
    (hlt : root < r.graph.nodes.length)
    (hterm : ∀ i, i < r.graph.nodes.length → CppNameTerm r.graph i) :
    (generate r freshState).isOk = true ∧
    (generate r_cyc freshState).toOption.map
      (fun st => (st.interfaces.map Prod.fst).count "A") = some 1 := by
  constructor
  · have hname : ∀ i, i < r.graph.nodes.length →
        (_cpp_name r.graph (r.graph.nodes.length + 1) i).isSome := by
      intro i hi
      exact (cppName_term_iff r.graph i).mpr (hterm i hi)
    obtain ⟨s', hs'⟩ := visit_ok r.graph hwf hname (r.graph.nodes.length + 1) root
      (resetState freshState) hlt (Nat.lt_succ_of_le (unvisitedCount_le _ _))
    rw [generate, hroot]
    show (visit r.graph (r.graph.nodes.length + 1) root
      (resetState freshState)).isOk = true
    rw [hs']
    rfl
  · rfl

/-- Witness for C2: the claim's own cyclic schema satisfies every
hypothesis — including name-recursion termination at both nodes — and
its run completes. -/
theorem C2_termination_witness : (generate r_cyc freshState).isOk = true :=
  (C2_termination r_cyc 0 (by decide) rfl (by decide)
    (fun i hi => by
      have hi2 : i < 2 := hi
      have h0 : CppNameTerm g_cyc 0 := CppNameTerm.mk 0 (by
        intro c hc
        rw [show nameChildren g_cyc 0 = [] from rfl] at hc
        cases hc)
      have h1 : CppNameTerm g_cyc 1 := CppNameTerm.mk 1 (by
        intro c hc
        rw [show nameChildren g_cyc 1 = [0] from rfl] at hc
        rcases List.mem_singleton.mp hc with hc
        rw [hc]
        exact h0)
      rcases (by omega : i = 0 ∨ i = 1) with h | h
      · rw [h]
        exact h0
      · rw [h]
        exact h1)).1

/-- C3: over any call sequence, the allocator returns the zero-based
counter value for a novel key (recording it and bumping the counter),
returns the recorded integer unchanged for a seen key, never maps two
distinct keys to one integer, and the issued IDs are exactly the
contiguous range below the counter. -/
theorem C3_allocator (ks : List (Nat × String)) :
    (∀ k, lookupId (runAlloc ks).model_ids k = none →
      (_get_insert_model_id (runAlloc ks) k).1 = (runAlloc ks).next_model_id ∧
      ((_get_insert_model_id (runAlloc ks) k).2).next_model_id =
        (runAlloc ks).next_model_id + 1 ∧
      lookupId ((_get_insert_model_id (runAlloc ks) k).2).model_ids k =
        some (runAlloc ks).next_model_id) ∧
    (∀ k v, lookupId (runAlloc ks).model_ids k = some v →
      _get_insert_model_id (runAlloc ks) k = (v, runAlloc ks)) ∧
    (∀ k1 k2 v, lookupId (runAlloc ks).model_ids k1 = some v →
      lookupId (runAlloc ks).model_ids k2 = some v → k1 = k2) ∧
    (∀ v, v < (runAlloc ks).next_model_id ↔
      v ∈ (runAlloc ks).model_ids.map Prod.snd) := by
  have hinv := allocInv_runAlloc ks
  refine ⟨?_, ?_, alloc_inj _ hinv, alloc_dense _ hinv⟩
  · intro k hk
    rw [_get_insert_model_id, hk]
    exact ⟨rfl, rfl, lookupId_append_self _ k _ hk⟩
  · intro k v hk
    rw [_get_insert_model_id, hk]

/-- Witness for C3: re-querying a just-inserted key returns its ID and
leaves the allocator untouched. -/
theorem C3_allocator_witness :
    _get_insert_model_id (runAlloc [((0 : Nat), "a")]) (0, "a") =
      (0, runAlloc [((0 : Nat), "a")]) :=
  (C3_allocator [((0 : Nat), "a")]).2.1 (0, "a") 0 rfl

/-- C4: name synthesis is defined over every variant and depends only on
the graph, never on traversal state: declared names for interfaces,
enumerations and primitives, the literal `None` for the void sentinel,
the `Or`-join for unions and the `FrozenArray_` prefix for sequences
(each propagating a divergent member/element recursion); concretely, a
union of `Number` and `String` yields `NumberOrString` and a sequence
of `Number` yields `FrozenArray_Number`. -/
theorem C4_name_synthesis :
    (∀ (g : Graph) (fuel id : Nat) (name : String) (attrs : List Attr),
      g.nodes[id]? = some (TyShape.TyInterface name attrs) →
      _cpp_name g (fuel + 1) id = some name) ∧
    (∀ (g : Graph) (fuel id : Nat) (name : String) (values : List String),
      g.nodes[id]? = some (TyShape.TyEnum name values) →
      _cpp_name g (fuel + 1) id = some name) ∧
    (∀ (g : Graph) (fuel id : Nat) (name : String),
      g.nodes[id]? = some (TyShape.TyPrimitive name) →
      _cpp_name g (fuel + 1) id = some name) ∧
    (∀ (g : Graph) (fuel id : Nat), g.nodes[id]? = some TyShape.TyNone →
      _cpp_name g (fuel + 1) id = some "None") ∧
    (∀ (g : Graph) (fuel id : Nat) (tys : List Nat),
      g.nodes[id]? = some (TyShape.Alt tys) →
      _cpp_name g (fuel + 1) id =
        Option.map (String.intercalate "Or") (nameList g fuel tys)) ∧
    (∀ (g : Graph) (fuel id e : Nat),
      g.nodes[id]? = some (TyShape.TyFrozenArray e) →
      _cpp_name g (fuel + 1) id =
        Option.map (fun n => "FrozenArray_" ++ n) (_cpp_name g fuel e)) ∧
    _cpp_name g_ns 5 2 = some "NumberOrString" ∧
    _cpp_name g_ns 5 3 = some "FrozenArray_Number" :=
  ⟨fun g fuel id name attrs hn => cppName_leaf_interface g fuel id name attrs hn,
   fun g fuel id name values hn => cppName_leaf_enum g fuel id name values hn,
   fun g fuel id name hn => cppName_leaf_primitive g fuel id name hn,
   fun g fuel id hn => cppName_leaf_tynone g fuel id hn,
   fun g fuel id tys hn => cppName_alt g fuel id tys hn,
   fun g fuel id e hn => cppName_frozen g fuel id e hn,
   by decide, by decide⟩

/-- Witness for C4: the primitive clause applied at a concrete node. -/
theorem C4_name_synthesis_witness : _cpp_name g_ns 1 0 = some "Number" :=
  C4_name_synthesis.2.2.1 g_ns 0 0 "Number" rfl

/-- C5: enumeration members are rendered in ascending lexicographic
order of the raw values by the dual rule; `{"b", "a-c", "+"}` yields
`PLUS, A_C, B` in that order, the processed value list is always sorted
and a permutation of the input, and `make_name` coincides with the dual
rule exactly as the specification words it. -/
theorem C5_enum_ordering_rendering :
    gen_enum_members ["b", "a-c", "+"] = ["PLUS", "A_C", "B"] ∧
    (∀ values : List String, List.Sorted (· ≤ ·) (sortedValues values)) ∧
    (∀ values : List String, (sortedValues values).Perm values) ∧
    (∀ v : String, make_name v = make_name_spec v) ∧
    gen_enum "E" ["b", "a-c", "+"] =
      "enum class E \x7b\n  PLUS,\n  A_C,\n  B\n\x7d;" :=
  ⟨by decide, sortedValues_sorted, sortedValues_perm, make_name_eq_spec, by decide⟩

/-- C6: two runs of `generate` over the same resolver from two fresh
instances (each with its own empty visited set; `generate` itself
re-initializes the collections and the allocator) produce identical
results — identical collections, names and model-ID assignments. -/
theorem C6_determinism (r : Resolver) (s1 s2 : GenState)
    (h1 : s1.visited_types = []) (h2 : s2.visited_types = []) :
    generate r s1 = generate r s2 ∧
    (∀ t1 t2, generate r s1 = Except.ok t1 → generate r s2 = Except.ok t2 →
      t1.interfaces = t2.interfaces ∧ t1.alts = t2.alts ∧
      t1.enums = t2.enums ∧ t1.primitives = t2.primitives ∧
      t1.frozen_arrays = t2.frozen_arrays ∧ t1.model_ids = t2.model_ids) := by
  have e1 : resetState s1 = (⟨[], [], [], [], [], [], [], 0⟩ : GenState) := by
    show (⟨s1.visited_types, [], [], [], [], [], [], 0⟩ : GenState) = _
    rw [h1]
  have e2 : resetState s2 = (⟨[], [], [], [], [], [], [], 0⟩ : GenState) := by
    show (⟨s2.visited_types, [], [], [], [], [], [], 0⟩ : GenState) = _
    rw [h2]
  have hgen : generate r s1 = generate r s2 := by
    simp only [generate]
    rw [e1.trans e2.symm]
  refine ⟨hgen, ?_⟩
  intro t1 t2 ht1 ht2
  have heq : Except.ok (ε := GenErr × GenState) t1 = Except.ok t2 :=
    ht1.symm.trans (hgen.trans ht2)
  injection heq with heq
  subst heq
  exact ⟨rfl, rfl, rfl, rfl, rfl, rfl⟩

/-- Witness for C6: two fresh runs over `r_full` agree. -/
theorem C6_determinism_witness :
    generate r_full freshState = generate r_full freshState :=
  (C6_determinism r_full freshState freshState rfl rfl).1

/-- C7 counterexample: a root whose variant tag is outside the closed
set does NOT make the run fail — `generate` completes successfully,
merely marking the node visited and producing empty collections,
refuting "the run fails with a fatal internal-consistency error". -/
theorem C7_unknown_variant_counterexample :
    generate r_other freshState =
      Except.ok ⟨[0], [], [], [], [], [], [], 0⟩ ∧
    (generate r_other freshState).isOk = true := by
  constructor
  · rfl
  · rfl

/-- C7 (amended): a value whose variant tag is outside the closed set is
silently skipped by the dispatch: it is added to the visited set, no
handler runs, nothing is appended, no recursion happens, and no error is
raised. -/
theorem C7_unknown_variant_skipped (g : Graph) (fuel id : Nat) (s : GenState)
    (name : String) (hn : g.nodes[id]? = some (TyShape.Other name))
    (hm : id ∉ s.visited_types) :
    visit g (fuel + 1) id s =
      Except.ok { s with visited_types := id :: s.visited_types } :=
  visit_dispatch_other g fuel id s name hm hn

/-- Witness for C7: the unrecognized root of `g_other` is skipped. -/
theorem C7_unknown_variant_skipped_witness :
    visit g_other 1 0 freshState =
      Except.ok ⟨[0], [], [], [], [], [], [], 0⟩ :=
  C7_unknown_variant_skipped g_other 0 0 freshState "Mystery" rfl (by decide)

/-- C8 counterexample: the distinct raw values `a` and `A` both render
to member name `A`, so the generated member list of the value set
`{"a", "A"}` is not duplicate-free, refuting pairwise distinctness. -/
theorem C8_collision_counterexample :
    ("a" : String) ≠ "A" ∧ make_name "a" = make_name "A" ∧
    ¬ (gen_enum_members ["a", "A"]).Nodup := by
  refine ⟨by decide, by decide, by decide⟩

/-- C8 (amended): the member list renders each raw value of the sorted
value list by the dual rule — one member per raw value — but distinct
raw values may render to the same name, so uniqueness is not
guaranteed (`{"a", "A"}` yields `["A", "A"]`). -/
theorem C8_members_sorted_not_unique :
    (∀ values : List String,
      gen_enum_members values = (sortedValues values).map make_name_spec) ∧
    (∀ values : List String,
      (gen_enum_members values).length = values.length) ∧
    gen_enum_members ["a", "A"] = ["A", "A"] := by
  refine ⟨?_, ?_, by decide⟩
  · intro values
    rw [gen_enum_members]
    have hfn : make_name = make_name_spec := funext make_name_eq_spec
    rw [hfn]
  · intro values
    rw [gen_enum_members, List.length_map]
    exact (sortedValues_perm values).length_eq

/-- C9: when the root name `Script` is absent from the resolver,
`generate` fails with the key-resolution error, and the instance state
at the failure point holds no partial output: all five collections are
empty and no model ID has been issued. -/
theorem C9_root_not_found (r : Resolver) (s : GenState)
    (h : lookupStr r.interfaces "Script" = none) :
    generate r s = Except.error (GenErr.keyError "Script", resetState s) ∧
    (resetState s).interfaces = [] ∧ (resetState s).alts = [] ∧
    (resetState s).enums = [] ∧ (resetState s).primitives = [] ∧
    (resetState s).frozen_arrays = [] ∧ (resetState s).model_ids = [] ∧
    (resetState s).next_model_id = 0 := by
  refine ⟨?_, rfl, rfl, rfl, rfl, rfl, rfl, rfl⟩
  rw [generate, h]

/-- Witness for C9: a resolver without `Script` aborts with the error. -/
theorem C9_root_not_found_witness :
    generate r_noScript freshState =
      Except.error (GenErr.keyError "Script", resetState freshState) :=
  (C9_root_not_found r_noScript freshState rfl).1

/-- C10: `generate` resets the collections and the allocator but not the
visited set, so a second `generate` on the same instance finds the root
already visited, returns immediately, and leaves every collection empty
with no model IDs issued. -/
theorem C10_second_generate_empty (r : Resolver) (s s1 : GenState)
    (h : generate r s = Except.ok s1) :
    generate r s1 = Except.ok (resetState s1) ∧
    (resetState s1).interfaces = [] ∧ (resetState s1).alts = [] ∧
    (resetState s1).enums = [] ∧ (resetState s1).primitives = [] ∧
    (resetState s1).frozen_arrays = [] ∧ (resetState s1).model_ids = [] ∧
    (resetState s1).next_model_id = 0 := by
  obtain ⟨root, hl, hv⟩ := generate_ok_inv r s s1 h
  have hmem : root ∈ s1.visited_types :=
    (visit_evolution r.graph _ root (resetState s) s1 hv).2
  refine ⟨?_, rfl, rfl, rfl, rfl, rfl, rfl, rfl⟩
  rw [generate, hl]
  show visit r.graph (r.graph.nodes.length + 1) root (resetState s1) =
    Except.ok (resetState s1)
  rw [visit_visited r.graph r.graph.nodes.length root (resetState s1)
    (by rw [resetState_visited]; exact hmem)]

/-- Witness for C10: after a full first run over `r_full`, the reset
state of a second run has an empty interfaces collection. -/
theorem C10_second_generate_empty_witness :
    (resetState ⟨[4, 3, 2, 1, 0],
      [("A", [("p", "Number", "false", 0), ("u", "NumberOrE", "true", 1),
              ("e", "E", "false", 2), ("f", "FrozenArray_Number", "false", 3)])],
      [("NumberOrE", ["Number", "E"])], ["E"], ["Number"],
      [("FrozenArray_Number", "Number", 4)],
      [((0, "p"), 0), ((0, "u"), 1), ((0, "e"), 2), ((0, "f"), 3),
       ((4, "list-length"), 4)], 5⟩).interfaces = [] :=
  (C10_second_generate_empty r_full freshState
    ⟨[4, 3, 2, 1, 0],
      [("A", [("p", "Number", "false", 0), ("u", "NumberOrE", "true", 1),
              ("e", "E", "false", 2), ("f", "FrozenArray_Number", "false", 3)])],
      [("NumberOrE", ["Number", "E"])], ["E"], ["Number"],
      [("FrozenArray_Number", "Number", 4)],
      [((0, "p"), 0), ((0, "u"), 1), ((0, "e"), 2), ((0, "f"), 3),
       ((4, "list-length"), 4)], 5⟩ rfl).2.1
